import Mathlib

/-!
# DynamoDB local server: start, readiness and stop

A verification development for `server.go` of `dynamodb-local-server`.

* Paths: Go `path.Clean`, `path.Join` and `path.Dir`, with the loop of `path.Clean` written
  byte by byte, and the three paths the program builds from `currentDir`.
* The sequential part, `Start` up to the launch of the child: the probe for the jar, the download,
  the extraction, the process start, as functions of a `World` that says how each call on the
  outside turns out; they return how the call ends and the events it caused.
* The concurrent part, from `go s.watch(stdout, ready)` on: a transition system whose actions
  are the moves of `watch`, of the goroutine inside `startServer` and `Stop`, of the child
  and of the timer.
-/

namespace DynamoDBLocalServer

/-! ## Definitions -/

/-! ### Paths -/

/-- The inner loop of the `..` case of Go `path.Clean`, run after the first `out.w--`:
`for out.w > dotdot && out.index(out.w) != '/' { out.w-- }`. It takes `out.w` and returns
its final value; `buf` is the content written so far. -/
def backtrackLoop (buf : List Char) (dotdot : Nat) : Nat → Nat
  | 0 => 0
  | w + 1 =>
    if w + 1 > dotdot ∧ buf[w + 1]? ≠ some '/' then backtrackLoop buf dotdot w else w + 1

/-- The main loop `for r < n { switch ... }` of Go `path.Clean`. `path` is what is left to read
(from index `r` on), `out` the bytes written so far (`out.w` is its length), `dotdot` the index
where `..` must stop. Every round reads at least one byte, so `fuel` as large as the length of
`path` is never used up. Returns the final `out` and `dotdot`. -/
def cleanLoop (rooted : Bool) : Nat → List Char → List Char → Nat → List Char × Nat
  | 0, _, out, dotdot => (out, dotdot)
  | fuel + 1, path, out, dotdot =>
    match path with
    | [] => (out, dotdot)
    | c :: rest =>
      if c = '/' then
        -- empty path element
        cleanLoop rooted fuel rest out dotdot
      else if c = '.' ∧ (rest = [] ∨ rest.head? = some '/') then
        -- . element
        cleanLoop rooted fuel rest out dotdot
      else if c = '.' ∧ rest.head? = some '.' ∧
          (rest.tail = [] ∨ rest.tail.head? = some '/') then
        -- .. element: remove to last /
        if out.length > dotdot then
          -- can backtrack
          cleanLoop rooted fuel rest.tail
            (out.take (backtrackLoop out dotdot (out.length - 1))) dotdot
        else if rooted = false then
          -- cannot backtrack, but not rooted, so append .. element
          let out1 := (if out.length > 0 then out ++ ['/'] else out) ++ ['.', '.']
          cleanLoop rooted fuel rest.tail out1 out1.length
        else
          cleanLoop rooted fuel rest.tail out dotdot
      else
        -- real path element: add slash if needed, copy element
        let out1 :=
          if (rooted = true ∧ out.length ≠ 1) ∨ (rooted = false ∧ out.length ≠ 0) then
            out ++ ['/']
          else out
        cleanLoop rooted fuel ((c :: rest).dropWhile (fun x => x ≠ '/'))
          (out1 ++ (c :: rest).takeWhile (fun x => x ≠ '/')) dotdot

/-- Go `path.Clean` on the characters of the path. -/
def cleanChars (path : List Char) : List Char :=
  if path = [] then ['.']
  else
    let out :=
      if path.head? = some '/' then (cleanLoop true path.length path.tail ['/'] 1).1
      else (cleanLoop false path.length path [] 0).1
    -- Turn empty string into "."
    if out = [] then ['.'] else out

/-- The buffer Go `path.Join` builds before cleaning: the non-empty elements (and the empty
ones that come after a non-empty one) separated by `/`. -/
def joinBuf (elem : List (List Char)) : List Char :=
  elem.foldl
    (fun buf e =>
      if buf.length > 0 ∨ e ≠ [] then (if buf.length > 0 then buf ++ ['/'] else buf) ++ e
      else buf)
    []

/-- Go `path.Join` on characters. -/
def joinChars (elem : List (List Char)) : List Char :=
  if (elem.map List.length).sum = 0 then [] else cleanChars (joinBuf elem)

/-- The first half of Go `path.Split`: `path[:i+1]` where `i` is the index of the last slash. -/
def dirPart (path : List Char) : List Char :=
  (path.reverse.dropWhile (fun x => x ≠ '/')).reverse

/-- Go `path.Dir` on characters. -/
def dirChars (path : List Char) : List Char := cleanChars (dirPart path)

/-- Go `path.Clean`. Paths are handled as sequences of characters: only `/` and `.` are
inspected, and neither occurs inside a multi-byte UTF-8 sequence. -/
def Clean (path : String) : String := ⟨cleanChars path.data⟩

/-- Go `path.Join`. -/
def Join (elem : List String) : String := ⟨joinChars (elem.map String.data)⟩

/-- Go `path.Dir`. -/
def Dir (path : String) : String := ⟨dirChars path.data⟩

def DynamoDBLocal_Jar_Path : String := "dynamodb-local/DynamoDBLocal.jar"
def DynamoDBLocal_Zip_Name : String := "dynamodb_local_latest.zip"
def DynamoDBLocal_DownloadJarUrl : String :=
  "https://s3-us-west-2.amazonaws.com/dynamodb-local/dynamodb_local_latest.zip"

/-- The path `Start` probes with `os.Stat` (line 45) and `startServer` passes after `-jar`
(line 166): `path.Join(currentDir, DynamoDBLocal_Jar_Path)`. -/
def jarPath (currentDir : String) : String := Join [currentDir, DynamoDBLocal_Jar_Path]

/-- The path `zipname` of `downloadLocalLib` (line 148). -/
def zipPath (currentDir : String) : String := Join [currentDir, DynamoDBLocal_Zip_Name]

/-- The directory `dest` of `unzipLib` (line 101). -/
def unzipDest (currentDir : String) : String :=
  Join [Dir (Join [currentDir, DynamoDBLocal_Jar_Path])]

/-- The path elements of a name: the pieces between slashes. -/
def pathElements : List Char → List (List Char)
  | [] => [[]]
  | c :: rest =>
    if c = '/' then [] :: pathElements rest
    else
      match pathElements rest with
      | [] => [[c]]
      | e :: es => (c :: e) :: es

/-- Path `p` is `dir` itself or lies below it: `dir` followed by a slash is a prefix of `p`. -/
def isWithin (dir p : String) : Bool :=
  p = dir || (dir.data ++ ['/']).isPrefixOf p.data

/-! ### The loop of `path.Clean`, element by element -/

/-- The slash Go `path.Clean` puts before a real path element: `out` followed by `/`, unless
`out` is still the bare root (rooted, one byte) or still empty (not rooted). -/
def slashIfNeeded (rooted : Bool) (out : List Char) : List Char :=
  if (rooted = true ∧ out.length ≠ 1) ∨ (rooted = false ∧ out.length ≠ 0) then
    out ++ ['/']
  else out

/-- What one path element does to the state `(out, dotdot)` of `path.Clean`: an empty element
and `.` change nothing, `..` backtracks or (not rooted, nothing to remove) is appended, any
other element is appended after a slash if one is needed. -/
def elemStep (rooted : Bool) (st : List Char × Nat) (e : List Char) : List Char × Nat :=
  if e = [] ∨ e = ['.'] then st
  else if e = ['.', '.'] then
    if st.1.length > st.2 then
      (st.1.take (backtrackLoop st.1 st.2 (st.1.length - 1)), st.2)
    else if rooted = false then
      ((if st.1.length > 0 then st.1 ++ ['/'] else st.1) ++ ['.', '.'],
       ((if st.1.length > 0 then st.1 ++ ['/'] else st.1) ++ ['.', '.']).length)
    else st
  else (slashIfNeeded rooted st.1 ++ e, st.2)

/-- A path element other than the empty one, `.` and `..`, and without a slash. -/
def RealElem (e : List Char) : Prop :=
  e ≠ [] ∧ e ≠ ['.'] ∧ e ≠ ['.', '.'] ∧ '/' ∉ e

/-- The states `(out, dotdot)` that `path.Clean` can be in: the start, then `..` elements
while nothing can be removed (not rooted only), then real elements. -/
inductive NF (rooted : Bool) : List Char → Nat → Prop where
  | init : NF rooted (if rooted = true then ['/'] else []) (if rooted = true then 1 else 0)
  | dots (out : List Char) : rooted = false → NF rooted out out.length →
      NF rooted ((if out.length > 0 then out ++ ['/'] else out) ++ ['.', '.'])
        ((if out.length > 0 then out ++ ['/'] else out) ++ ['.', '.']).length
  | elem (out : List Char) (dotdot : Nat) (e : List Char) : NF rooted out dotdot → RealElem e →
      NF rooted (slashIfNeeded rooted out ++ e) dotdot

/-- The path starts with a slash. -/
def isRooted (path : List Char) : Bool := path.head? = some '/'

/-- What the loop of `path.Clean` reads: the path without its leading slash. -/
def body (path : List Char) : List Char := if isRooted path then path.tail else path

/-- The state `path.Clean` starts its loop in. -/
def initOut (rooted : Bool) : List Char × Nat := if rooted = true then (['/'], 1) else ([], 0)

/-- The final state of `path.Clean`, element by element. -/
def cleanFold (path : List Char) : List Char × Nat :=
  (pathElements (body path)).foldl (elemStep (isRooted path)) (initOut (isRooted path))

/-! ### The running system -/

/-- Go `strings.Contains(s, sub)`: `sub` occurs somewhere inside `s`. -/
def stringsContains (s sub : String) : Bool :=
  s.data.tails.any (fun t => sub.data.isPrefixOf t)

/-- The substring `watch` looks for on every line of the child's output (server.go:204). -/
def readyMarker : String := "Initializing DynamoDB Local with the following configuratio"

/-- An `*exec.Cmd` as built by `exec.Command(name, args...)`. -/
structure Cmd where
  name : String
  args : List String
deriving DecidableEq

/-- The two channels `startServer` makes: `done` (line 170) and `ready` (line 183). -/
inductive ChanId where
  | done
  | ready
deriving DecidableEq

/-- The struct `DynamoDBServer` (server.go:28-31). -/
structure DynamoDBServer where
  cmd : Cmd
  done : ChanId
deriving DecidableEq

/-- What the program writes through package `log` in `startServer`, `watch` and `Stop`. -/
inductive LogEntry where
  /-- the call `log.Println(text)` in `watch`, line 203 -/
  | childLine (text : String)
  /-- the call `log.Printf("DynamoDB local server running on pid %d, port %s\n", ...)`,
  line 188 -/
  | running (pid : Nat) (port : String)
  /-- the call `log.Println("DynamoDB local server stopped")`, line 210 -/
  | stopped
  /-- the call `log.Println("Stopping DynamoDB local server")`, line 215 -/
  | stopping
deriving DecidableEq

/-- The text of a log entry. -/
def LogEntry.text : LogEntry → String
  | .childLine t => t
  | .running pid port =>
      "DynamoDB local server running on pid " ++ toString pid ++ ", port " ++ port
  | .stopped => "DynamoDB local server stopped"
  | .stopping => "Stopping DynamoDB local server"

/-- Where the goroutine `s.watch(stdout, ready)` stands (server.go:198-212). -/
inductive WatchPc where
  /-- at `scnout.Scan()`, line 201 -/
  | scan
  /-- at `ready <- nil`, line 205 -/
  | send
  /-- in `s.cmd.Wait()`, line 209 -/
  | wait
  /-- after `s.cmd.Wait()` has returned; lines 210-211 are next -/
  | close
  /-- after `close(s.done)`: the goroutine is over -/
  | finished
deriving DecidableEq

/-- Where the goroutine that called `startServer` stands. -/
inductive CallerPc where
  /-- blocked in the `select` of lines 185-193 -/
  | select
  /-- after `startServer` has returned `s`: the caller holds the handle and is outside `Stop` -/
  | holding
  /-- inside `Stop`, blocked at `<-s.done`, line 217 -/
  | inStop
deriving DecidableEq

/-- Which case of the `select` ended the wait of `startServer`. -/
inductive SelectCase where
  | ready
  | timeout
deriving DecidableEq

/-- The state of the running system from the moment `go s.watch(stdout, ready)` was issued
(line 184): the child process, the two channels, the timer of `time.After`, the two goroutines,
and the log. -/
structure State where
  /-- the handle `s` built at lines 163-171 -/
  handle : DynamoDBServer
  /-- the process id `s.cmd.Process.Pid` -/
  pid : Nat
  /-- the `port` argument of `startServer` -/
  port : String
  /-- lines of the child's stdout that the scanner has not delivered yet -/
  out : List String
  /-- the write end of the stdout pipe is closed: after the pending lines comes end of file -/
  stdoutClosed : Bool
  /-- the child process has exited -/
  exited : Bool
  /-- whether `Stop` has sent `os.Interrupt` to the child at least once -/
  signalled : Bool
  /-- the channel returned by `time.After(time.Second * 10)` holds its tick -/
  timerFired : Bool
  /-- number of values sitting in the buffer of `ready` (capacity 1) -/
  readyBuf : Nat
  /-- whether `close(s.done)` has happened -/
  doneClosed : Bool
  watch : WatchPc
  caller : CallerPc
  /-- the value `startServer` returned, once it has -/
  result : Option DynamoDBServer
  /-- the `select` case that was taken, once one has been -/
  endedBy : Option SelectCase
  /-- completed calls of `Stop` -/
  stopsReturned : Nat
  log : List LogEntry
deriving DecidableEq

/-- Capacity of `ready`: `make(chan error, 1)`, line 183. -/
def readyCap : Nat := 1

/-- One atomic move of the system: of the child and the timer (the environment), of `watch`,
or of the caller's goroutine. -/
inductive Action where
  /-- the child closes its stdout without exiting -/
  | childCloseStdout
  /-- the child process exits (its stdout closes with it) -/
  | childExit
  /-- ten seconds have passed: the timer channel becomes ready -/
  | timerFire
  /-- the call `scnout.Scan()` returns: with the next line, or `false` at end of file -/
  | watchScan
  /-- the send `ready <- nil` completes -/
  | watchSend
  /-- the call `s.cmd.Wait()` returns -/
  | watchWait
  /-- lines 210-211: `log.Println("DynamoDB local server stopped"); close(s.done)` -/
  | watchClose
  /-- the `select` takes `case err := <-ready` -/
  | selectReady
  /-- the `select` takes `case <-time.After(time.Second * 10)` -/
  | selectTimeout
  /-- the caller enters `Stop`: logs, signals the child, and starts waiting on `done` -/
  | stopCall
  /-- the receive `<-s.done` completes and `Stop` returns -/
  | stopReturn
deriving DecidableEq

/-- The effect of an action, `none` when the action is not enabled in the state (the goroutine
is elsewhere, or it is blocked). -/
def step (a : Action) (s : State) : Option State :=
  match a with
  | .childCloseStdout =>
      if s.stdoutClosed then none else some { s with stdoutClosed := true }
  | .childExit =>
      if s.exited then none else some { s with exited := true, stdoutClosed := true }
  | .timerFire =>
      if s.timerFired then none else some { s with timerFired := true }
  | .watchScan =>
      if s.watch = .scan then
        match s.out with
        | text :: rest =>
            some { s with
              out := rest
              log := s.log ++ [.childLine text]
              watch := if stringsContains text readyMarker then .send else .scan }
        | [] => if s.stdoutClosed then some { s with watch := .wait } else none
      else none
  | .watchSend =>
      if s.watch = .send ∧ s.readyBuf < readyCap then
        some { s with readyBuf := s.readyBuf + 1, watch := .scan }
      else none
  | .watchWait =>
      if s.watch = .wait ∧ s.exited then some { s with watch := .close } else none
  | .watchClose =>
      if s.watch = .close then
        some { s with log := s.log ++ [.stopped], doneClosed := true, watch := .finished }
      else none
  | .selectReady =>
      if s.caller = .select ∧ 0 < s.readyBuf then
        some { s with
          readyBuf := s.readyBuf - 1
          log := s.log ++ [.running s.pid s.port]
          caller := .holding
          result := some s.handle
          endedBy := some .ready }
      else none
  | .selectTimeout =>
      if s.caller = .select ∧ s.timerFired then
        some { s with caller := .holding, result := some s.handle, endedBy := some .timeout }
      else none
  | .stopCall =>
      if s.caller = .holding then
        some { s with log := s.log ++ [.stopping], signalled := true, caller := .inStop }
      else none
  | .stopReturn =>
      if s.caller = .inStop ∧ s.doneClosed then
        some { s with caller := .holding, stopsReturned := s.stopsReturned + 1 }
      else none

/-- Run a schedule: the actions in order, `none` as soon as one is not enabled. -/
def run : List Action → State → Option State
  | [], s => some s
  | a :: as, s => (step a s).bind (run as)

/-- No goroutine can move and the environment will not rescue them: every action other than
the child closing its stdout, the child exiting and the timer firing is disabled. -/
def blocked (s : State) : Bool :=
  [Action.watchScan, .watchSend, .watchWait, .watchClose, .selectReady, .selectTimeout,
   .stopReturn].all (fun a => (step a s).isNone)

/-! ### Download, extraction and process start -/

/-- Result of `os.Stat` as far as the program looks at it: success, an error for which
`os.IsNotExist` holds, or another error. -/
inductive StatResult where
  | found
  | notExist
  | otherError
deriving DecidableEq

/-- The fallible calls of the download, the extraction and the process start. -/
inductive Step where
  /-- the call `os.Create(zipname)`, line 113 -/
  | createZip
  /-- the call `http.DefaultClient.Do(req)`, line 121 -/
  | httpRequest
  /-- the call `io.Copy(out, resp.Body)`, line 141 -/
  | copyBody
  /-- the call `zip.OpenReader(zipname)`, line 95 -/
  | openArchive
  /-- the call `f.Open()`, line 54 -/
  | openEntry
  /-- the call `os.MkdirAll`, lines 67 and 69 -/
  | mkdirAll
  /-- the call `os.OpenFile`, line 70 -/
  | openFile
  /-- the call `io.Copy(f, rc)`, line 80 -/
  | copyEntry
  /-- the call `f.Close()` in the deferred function of lines 74-78 -/
  | closeFile
  /-- the call `rc.Close()` in the deferred function of lines 58-62 -/
  | closeEntry
  /-- the call `s.cmd.StdoutPipe()`, line 174 -/
  | stdoutPipe
deriving DecidableEq

/-- One entry `*zip.File` of the archive, with how each call made on it turns out. -/
structure ZipEntry where
  /-- the name `f.Name` -/
  name : String
  /-- the value of `f.FileInfo().IsDir()` -/
  isDir : Bool
  /-- the call `f.Open()` fails -/
  openFails : Bool
  /-- the call `os.MkdirAll` for this entry fails -/
  mkdirFails : Bool
  /-- the call `os.OpenFile` fails -/
  openFileFails : Bool
  /-- the call `io.Copy(f, rc)` fails -/
  copyFails : Bool
  /-- the call `f.Close()` on the written file fails -/
  fileCloseFails : Bool
  /-- the call `rc.Close()` fails -/
  rcCloseFails : Bool
deriving DecidableEq

/-- Everything outside the program that `Start` depends on: the package directory, what
`os.Stat` answers for the jar and the zip, the entries of the archive, and which calls fail. -/
structure World where
  currentDir : String
  jarStat : StatResult
  zipStat : StatResult
  createZipFails : Bool
  httpFails : Bool
  bodyCopyFails : Bool
  openArchiveFails : Bool
  entries : List ZipEntry
  pipeFails : Bool
  startFails : Bool
deriving DecidableEq

/-- What the program does to the outside, in order. The two `log.Printf` of `downloadZip`
that print sizes, and the goroutine that reports the size of the growing file, are left out. -/
inductive Event where
  /-- the call `os.Stat(path)` -/
  | stat (path : String)
  /-- a line written through package `log` -/
  | log (msg : String)
  /-- a fallible call on `target`, and whether it succeeded -/
  | did (step : Step) (target : String) (ok : Bool)
  /-- the call `s.cmd.Start()` (line 179) on the command `cmd`, and whether it succeeded -/
  | start (cmd : Cmd) (ok : Bool)
deriving DecidableEq

/-- How a call of a Go function ends: it returns, it panics, or the program exits
(`log.Fatal` calls `os.Exit(1)`). -/
inductive Outcome (α : Type) where
  | returned (a : α)
  | panicked
  | exited
deriving DecidableEq

/-- The handle `s` of `startServer`, lines 163-171. -/
def newServer (currentDir port : String) : DynamoDBServer :=
  { cmd :=
      { name := "java"
        args := ["-jar", Join [currentDir, DynamoDBLocal_Jar_Path], "-sharedDb", "-inMemory",
                 "-port", port] }
    done := .done }

/-- The function `extractAndWriteFile` (lines 53-86). The Go `error` it returns is `none` for
`nil` and otherwise names the call that failed. The deferred closes run on every way out
after they were registered, and panic when the close fails. -/
def extractAndWriteFile (dest : String) (f : ZipEntry) : Outcome (Option Step) × List Event :=
  if f.openFails then (.returned (some .openEntry), [.did .openEntry f.name false])
  else
    let filepath := Join [dest, f.name]
    if f.isDir then
      (if f.rcCloseFails then .panicked else .returned none,
       [.did .openEntry f.name true,
        .did .mkdirAll filepath (!f.mkdirFails),
        .did .closeEntry f.name (!f.rcCloseFails)])
    else if f.openFileFails then
      (if f.rcCloseFails then .panicked else .returned (some .openFile),
       [.did .openEntry f.name true,
        .did .mkdirAll (Dir filepath) (!f.mkdirFails),
        .did .openFile filepath false,
        .did .closeEntry f.name (!f.rcCloseFails)])
    else
      (if f.fileCloseFails ∨ f.rcCloseFails then .panicked
       else .returned (if f.copyFails then some .copyEntry else none),
       [.did .openEntry f.name true,
        .did .mkdirAll (Dir filepath) (!f.mkdirFails),
        .did .openFile filepath true,
        .did .copyEntry filepath (!f.copyFails),
        .did .closeFile filepath (!f.fileCloseFails),
        .did .closeEntry f.name (!f.rcCloseFails)])

/-- The loop `for _, f := range r.File` of `unzipLib` (lines 102-107). -/
def extractAll (dest : String) : List ZipEntry → Outcome (Option Step) × List Event
  | [] => (.returned none, [])
  | f :: fs =>
    match extractAndWriteFile dest f with
    | (.returned none, ev) => ((extractAll dest fs).1, ev ++ (extractAll dest fs).2)
    | (o, ev) => (o, ev)

/-- The function `unzipLib` (lines 92-110). -/
def unzipLib (w : World) (zipname : String) : Outcome (Option Step) × List Event :=
  if w.openArchiveFails then
    (.returned (some .openArchive),
     [.log "Unzipping files...", .did .openArchive zipname false])
  else
    let dest := Join [Dir (Join [w.currentDir, DynamoDBLocal_Jar_Path])]
    ((extractAll dest w.entries).1,
     [.log "Unzipping files...", .did .openArchive zipname true] ++ (extractAll dest w.entries).2)

/-- The function `downloadZip` (lines 112-145). -/
def downloadZip (w : World) (zipname : String) : Outcome Unit × List Event :=
  if w.createZipFails then (.panicked, [.did .createZip zipname false])
  else if w.httpFails then
    (.panicked,
     [.did .createZip zipname true,
      .log ("Downloading from " ++ DynamoDBLocal_DownloadJarUrl),
      .did .httpRequest DynamoDBLocal_DownloadJarUrl false])
  else
    (if w.bodyCopyFails then .panicked else .returned (),
     [.did .createZip zipname true,
      .log ("Downloading from " ++ DynamoDBLocal_DownloadJarUrl),
      .did .httpRequest DynamoDBLocal_DownloadJarUrl true,
      .log ("Write zip file to " ++ zipname),
      .did .copyBody zipname (!w.bodyCopyFails)])

/-- The function `downloadLocalLib` (lines 147-159). -/
def downloadLocalLib (w : World) : Outcome Unit × List Event :=
  let zipname := Join [w.currentDir, DynamoDBLocal_Zip_Name]
  let dl : Outcome Unit × List Event :=
    if w.zipStat = .notExist then downloadZip w zipname
    else (.returned (), [.log (zipname ++ " already exists. Try to unzip it.")])
  match dl.1 with
  | .returned () =>
    match unzipLib w zipname with
    | (.returned none, ev) => (.returned (), .stat zipname :: dl.2 ++ ev)
    | (.returned (some _), ev) => (.panicked, .stat zipname :: dl.2 ++ ev)
    | (.panicked, ev) => (.panicked, .stat zipname :: dl.2 ++ ev)
    | (.exited, ev) => (.exited, .stat zipname :: dl.2 ++ ev)
  | .panicked => (.panicked, .stat zipname :: dl.2)
  | .exited => (.exited, .stat zipname :: dl.2)

/-- The function `startServer` (lines 161-196) as the caller of `Start` sees it. Once the
child runs, the function waits in the `select` of lines 185-193 and then returns `s` on
every path; that wait is the subject of `State` and `step`. -/
def startServer (w : World) (port : String) : Outcome DynamoDBServer × List Event :=
  let s := newServer w.currentDir port
  if w.pipeFails then (.exited, [.did .stdoutPipe s.cmd.name false])
  else if w.startFails then
    (.exited, [.did .stdoutPipe s.cmd.name true, .start s.cmd false])
  else
    (.returned s, [.did .stdoutPipe s.cmd.name true, .start s.cmd true])

/-- The function `Start` (lines 44-51). -/
def Start (w : World) (port : String) : Outcome DynamoDBServer × List Event :=
  let probe := Event.stat (Join [w.currentDir, DynamoDBLocal_Jar_Path])
  if w.jarStat = .notExist then
    match downloadLocalLib w with
    | (.returned (), ev) =>
      ((startServer w port).1,
       probe :: .log "No DynamoDBLocal lib found. Downloading it for testing purpose" :: ev
         ++ (startServer w port).2)
    | (.panicked, ev) =>
      (.panicked,
       probe :: .log "No DynamoDBLocal lib found. Downloading it for testing purpose" :: ev)
    | (.exited, ev) =>
      (.exited,
       probe :: .log "No DynamoDBLocal lib found. Downloading it for testing purpose" :: ev)
  else ((startServer w port).1, probe :: (startServer w port).2)

/-- The event is a call of `os.Create` on the zip: `downloadZip` has started a download. -/
def Event.isDownload : Event → Bool
  | .did .createZip _ _ => true
  | _ => false

/-- The event is a call of `zip.OpenReader`: `unzipLib` has started an extraction. -/
def Event.isExtraction : Event → Bool
  | .did .openArchive _ _ => true
  | _ => false

/-- The event is the successful `s.cmd.Start()`: the server is launched. -/
def Event.isLaunch : Event → Bool
  | .start _ true => true
  | _ => false

/-- The events of a run that come before the launch of the server. -/
def beforeLaunch (tr : List Event) : List Event := tr.takeWhile (fun e => !e.isLaunch)

/-- Number of downloads in a list of events. -/
def downloads (tr : List Event) : Nat := tr.countP Event.isDownload

/-- Number of extractions in a list of events. -/
def extractions (tr : List Event) : Nat := tr.countP Event.isExtraction

/-- The event is a failed call of one of the steps of download, extraction and process start:
creating the zip, the HTTP request, copying the body; opening the archive, opening an entry,
creating a directory or a file for an entry, copying an entry; creating the pipe, starting
java. -/
def Event.isFailure : Event → Bool
  | .did .createZip _ false => true
  | .did .httpRequest _ false => true
  | .did .copyBody _ false => true
  | .did .openArchive _ false => true
  | .did .openEntry _ false => true
  | .did .mkdirAll _ false => true
  | .did .openFile _ false => true
  | .did .copyEntry _ false => true
  | .did .stdoutPipe _ false => true
  | .start _ false => true
  | _ => false

/-- The state right after `go s.watch(stdout, ready)` (line 184): the child runs and will
write `lines` to its stdout, both channels are empty, the timer has not fired. -/
def initState (currentDir port : String) (pid : Nat) (lines : List String) : State :=
  { handle := newServer currentDir port
    pid := pid
    port := port
    out := lines
    stdoutClosed := false
    exited := false
    signalled := false
    timerFired := false
    readyBuf := 0
    doneClosed := false
    watch := .scan
    caller := .select
    result := none
    endedBy := none
    stopsReturned := 0
    log := [] }

/-- The state of `initState` once the timer has fired. -/
def timerFiredState (currentDir port : String) (pid : Nat) (lines : List String) : State :=
  { initState currentDir port pid lines with timerFired := true }

/-- The state after the child printed `Port: 8000` and the marker line, `watch` read both and
sent on `ready`, and `startServer` received and returned. -/
def readyReturnedState : State :=
  { initState "/pkg" "8000" 4242 [] with
    caller := .holding
    result := some (newServer "/pkg" "8000")
    endedBy := some .ready
    log := [.childLine "Port: 8000", .childLine readyMarker, .running 4242 "8000"] }

/-- A world in which nothing fails and both files are there. -/
def quietWorld (currentDir : String) : World :=
  { currentDir := currentDir
    jarStat := .found
    zipStat := .found
    createZipFails := false
    httpFails := false
    bodyCopyFails := false
    openArchiveFails := false
    entries := []
    pipeFails := false
    startFails := false }

/-- The jar is missing, the zip of an earlier download is still there. -/
def cachedZipWorld : World := { quietWorld "/pkg" with jarStat := .notExist }

/-- Neither the jar nor the zip is there. -/
def freshWorld : World :=
  { quietWorld "/pkg" with jarStat := .notExist, zipStat := .notExist }

/-- The jar is missing and the archive holds one directory entry, `lib`, for which
`os.MkdirAll` fails (as it does when `lib` already exists as a regular file). -/
def brokenDirWorld : World :=
  { quietWorld "/pkg" with
    jarStat := .notExist
    entries :=
      [{ name := "lib", isDir := true, openFails := false, mkdirFails := true,
         openFileFails := false, copyFails := false, fileCloseFails := false,
         rcCloseFails := false }] }

/-- A file entry of the archive as DynamoDB Local ships it, extracted without failure. -/
def libEntry : ZipEntry :=
  { name := "DynamoDBLocal_lib/libsqlite4java.so", isDir := false, openFails := false,
    mkdirFails := false, openFileFails := false, copyFails := false, fileCloseFails := false,
    rcCloseFails := false }

/-- A file entry whose name climbs out of the extraction directory. -/
def escapingEntry : ZipEntry :=
  { name := "../../.ssh/authorized_keys", isDir := false, openFails := false,
    mkdirFails := false, openFileFails := false, copyFails := false, fileCloseFails := false,
    rcCloseFails := false }

/-! ### Invariants of the running system -/

/-- A line with the readiness marker, read by `watch`, is in the log. -/
def markerLogged (lines : List String) (s : State) : Prop :=
  ∃ text, text ∈ lines ∧ LogEntry.childLine text ∈ s.log ∧
    stringsContains text readyMarker = true

/-- The facts about the state that every step keeps. -/
structure Inv (currentDir port : String) (lines : List String) (s : State) : Prop where
  handle : s.handle = newServer currentDir port
  out_sub : ∀ t ∈ s.out, t ∈ lines
  done_fin : s.doneClosed = true → s.watch = .finished
  fin_exit : s.watch = .close ∨ s.watch = .finished → s.exited = true
  stop_done : 0 < s.stopsReturned → s.doneClosed = true
  sel_none : s.caller = .select → s.result = none ∧ s.endedBy = none
  ret_some : s.caller ≠ .select →
    s.result = some (newServer currentDir port) ∧
      (s.endedBy = some .ready ∨ s.endedBy = some .timeout)
  ready_marker : s.endedBy = some .ready ∨ 0 < s.readyBuf ∨ s.watch = .send →
    markerLogged lines s
  timeout_fired : s.endedBy = some .timeout → s.timerFired = true

/-- What the schedule run so far must contain, given the state it led to. -/
structure Hist (pre : List Action) (s : State) : Prop where
  exited : s.exited = true → List.Sublist [Action.childExit] pre
  waited : s.watch = .close → List.Sublist [Action.childExit, Action.watchWait] pre
  closed : s.watch = .finished →
    List.Sublist [Action.childExit, Action.watchWait, Action.watchClose] pre

/-- With three marker lines to come: `watch` is still in its loop, `done` is open, no `Stop`
has returned, and the lines read so far are all accounted for by sends. -/
structure Inv3 (s : State) : Prop where
  markers : ∀ t ∈ s.out, stringsContains t readyMarker = true
  count : s.readyBuf + (if s.endedBy = some .ready then 1 else 0) + s.out.length
      + (if s.watch = .send then 1 else 0) = 3
  buf : s.readyBuf ≤ 1
  sel : s.caller = .select → s.endedBy = none
  loop : s.watch = .scan ∨ s.watch = .send
  done_open : s.doneClosed = false
  stops : s.stopsReturned = 0
/-- Number of lines that contain the readiness marker. -/
def markerCount (ls : List String) : Nat :=
  ls.countP (fun t => stringsContains t readyMarker)

/-- How far `watch` is from its end: two for every line still to read, plus the rank of the
place it stands at. -/
def watchMeasure (s : State) : Nat :=
  2 * s.out.length +
    (match s.watch with
     | .send => 4
     | .scan => 3
     | .wait => 2
     | .close => 1
     | .finished => 0)

/-- With at most one marker line in the output: the marker lines to come, the value in the
buffer of `ready`, a send under way and a receive made add up to one at most; and a child that
has exited has closed its stdout. -/
structure Inv1 (s : State) : Prop where
  budget : markerCount s.out + s.readyBuf + (if s.watch = .send then 1 else 0)
      + (if s.endedBy = some .ready then 1 else 0) ≤ 1
  sel : s.caller = .select → s.endedBy = none
  closed_on_exit : s.exited = true → s.stdoutClosed = true
  fin_done : s.watch = .finished → s.doneClosed = true

/-! ## Theorems -/

/-! ### `path.Clean` element by element -/

theorem elemStep_nil (r : Bool) (st : List Char × Nat) : elemStep r st [] = st := by
  simp [elemStep]

/-- The elements of a path: the run up to the first slash, then elements that act like those
of the rest of the path. -/
theorem pathElements_split (r : Bool) (path : List Char) :
    ∃ tl, pathElements path = path.takeWhile (fun x => x ≠ '/') :: tl ∧
      ∀ st, tl.foldl (elemStep r) st =
        (pathElements (path.dropWhile (fun x => x ≠ '/'))).foldl (elemStep r) st := by
  induction path with
  | nil => exact ⟨[], by simp [pathElements], fun st => by simp [pathElements, elemStep_nil]⟩
  | cons c rest ih =>
    by_cases hc : c = '/'
    · subst hc
      refine ⟨pathElements rest, by simp [pathElements], fun st => ?_⟩
      simp [pathElements, elemStep_nil]
    · obtain ⟨tl, h1, h2⟩ := ih
      refine ⟨tl, ?_, fun st => ?_⟩
      · simp [pathElements, hc, h1]
      · simp [hc, h2]

theorem takeWhile_eq_nil_cases (l : List Char) (h : l.takeWhile (fun x => x ≠ '/') = []) :
    l = [] ∨ l.head? = some '/' := by
  cases l with
  | nil => exact Or.inl rfl
  | cons a t =>
    right
    by_cases ha : a = '/'
    · simp [ha]
    · simp [List.takeWhile, ha] at h

theorem takeWhile_nil_of_boundary (l : List Char) (h : l = [] ∨ l.head? = some '/') :
    l.takeWhile (fun x => x ≠ '/') = [] ∧ l.dropWhile (fun x => x ≠ '/') = l := by
  cases l with
  | nil => simp
  | cons a t =>
    rcases h with h | h
    · simp at h
    · simp at h
      subst h
      simp

/-- The loop of `path.Clean` does to the state what its path elements do, one after the
other, whenever the fuel is at least the length of the path. -/
theorem cleanLoop_eq_fold (r : Bool) (fuel : Nat) :
    ∀ (path out : List Char) (dd : Nat), path.length ≤ fuel →
      cleanLoop r fuel path out dd = (pathElements path).foldl (elemStep r) (out, dd) := by
  induction fuel with
  | zero =>
    intro path out dd h
    have : path = [] := List.length_eq_zero.1 (Nat.le_zero.1 h)
    subst this
    simp [cleanLoop, pathElements, elemStep_nil]
  | succ fuel ih =>
    intro path out dd h
    cases path with
    | nil => simp [cleanLoop, pathElements, elemStep_nil]
    | cons c rest =>
      have hrest : rest.length ≤ fuel := by simpa using h
      simp only [cleanLoop]
      by_cases hc : c = '/'
      · subst hc
        simp only [if_true]
        rw [ih rest out dd hrest]
        simp [pathElements, elemStep_nil]
      · obtain ⟨tl, h1, h2⟩ := pathElements_split r (c :: rest)
        rw [h1, List.foldl_cons, h2]
        have htw : (c :: rest).takeWhile (fun x => x ≠ '/') =
            c :: rest.takeWhile (fun x => x ≠ '/') := by simp [hc]
        have hdw : (c :: rest).dropWhile (fun x => x ≠ '/') =
            rest.dropWhile (fun x => x ≠ '/') := by simp [hc]
        have hdl : (rest.dropWhile (fun x => x ≠ '/')).length ≤ fuel :=
          le_trans (List.dropWhile_sublist _).length_le hrest
        simp only [hc, if_false]
        rw [htw, hdw]
        by_cases h2c : c = '.' ∧ (rest = [] ∨ rest.head? = some '/')
        · -- the element is `.`
          obtain ⟨hdot, hb⟩ := h2c
          obtain ⟨t1, t2⟩ := takeWhile_nil_of_boundary rest hb
          simp only [hdot, hb, and_self, if_true]
          rw [ih rest out dd hrest, t1, t2]
          simp [elemStep]
        · simp only [h2c, if_false]
          by_cases h3c : c = '.' ∧ rest.head? = some '.' ∧
              (rest.tail = [] ∨ rest.tail.head? = some '/')
          · -- the element is `..`
            obtain ⟨hdot, hd2, hb⟩ := h3c
            cases rest with
            | nil => simp at hd2
            | cons d rest2 =>
              simp only [List.head?_cons, Option.some.injEq] at hd2
              subst hd2
              subst hdot
              simp only [List.tail_cons] at hb
              obtain ⟨t1, t2⟩ := takeWhile_nil_of_boundary rest2 hb
              have hr2 : rest2.length ≤ fuel := by
                simp only [List.length_cons] at hrest
                omega
              have hsl : ('.' : Char) ≠ '/' := by decide
              have hel : ('.' :: rest2).takeWhile (fun x => x ≠ '/') = ['.'] := by
                rw [List.takeWhile_cons]
                simp only [hsl, ne_eq, not_false_eq_true, decide_True, if_true, t1]
              have hdr : ('.' :: rest2).dropWhile (fun x => x ≠ '/') = rest2 := by
                rw [List.dropWhile_cons]
                simp only [hsl, ne_eq, not_false_eq_true, decide_True, if_true, t2]
              simp only [List.head?_cons, List.tail_cons, hb, and_self, if_true]
              rw [hel, hdr]
              simp only [elemStep]
              simp only [List.cons_ne_nil, false_or]
              have hne : (['.', '.'] : List Char) ≠ ['.'] := by decide
              simp only [hne, if_false, if_true]
              by_cases hlen : out.length > dd
              · simp only [hlen, if_true]
                exact ih rest2 _ dd hr2
              · simp only [hlen, if_false]
                cases r with
                | false =>
                  simp only [if_true]
                  exact ih rest2 _ _ hr2
                | true =>
                  simp only [Bool.true_eq_false, if_false]
                  exact ih rest2 out dd hr2
          · -- a real element
            simp only [h3c, if_false]
            rw [ih _ _ dd hdl]
            congr 1
            have hreal2 : c :: rest.takeWhile (fun x => x ≠ '/') ≠ ['.'] := by
              intro hcon
              simp only [List.cons.injEq] at hcon
              exact h2c ⟨hcon.1, takeWhile_eq_nil_cases rest hcon.2⟩
            have hreal3 : c :: rest.takeWhile (fun x => x ≠ '/') ≠ ['.', '.'] := by
              intro hcon
              simp only [List.cons.injEq] at hcon
              obtain ⟨hc1, hc2⟩ := hcon
              cases rest with
              | nil => simp at hc2
              | cons d rest2 =>
                by_cases hd : d = '/'
                · simp [hd] at hc2
                · rw [List.takeWhile_cons] at hc2
                  simp only [hd, ne_eq, not_false_eq_true, decide_True, if_true,
                    List.cons.injEq] at hc2
                  exact h3c ⟨hc1, by simp [hc2.1], by
                    simpa using takeWhile_eq_nil_cases rest2 hc2.2⟩
            simp only [elemStep, hreal2, hreal3, List.cons_ne_nil, false_or, if_false,
              slashIfNeeded]

theorem backtrackLoop_stop (buf : List Char) (dd lo : Nat) (hdd : dd ≤ lo)
    (hb : lo = dd ∨ buf[lo]? = some '/') :
    ∀ k, (∀ i, lo < i → i ≤ lo + k → buf[i]? ≠ some '/') →
      backtrackLoop buf dd (lo + k) = lo := by
  intro k
  induction k with
  | zero =>
    intro _
    cases lo with
    | zero => simp [backtrackLoop]
    | succ w =>
      simp only [Nat.add_zero, backtrackLoop]
      rcases hb with hb | hb
      · have : ¬ (w + 1 > dd) := by omega
        simp [this]
      · simp [hb]
  | succ k ih =>
    intro h
    have h1 : buf[lo + k + 1]? ≠ some '/' := h (lo + k + 1) (by omega) (by omega)
    have h2 : lo + k + 1 > dd := by omega
    show backtrackLoop buf dd (lo + k + 1) = lo
    simp only [backtrackLoop, h1, h2, ne_eq, not_false_eq_true, and_self, if_true]
    exact ih (fun i hi1 hi2 => h i hi1 (by omega))

/-- The `..` case removes the last element: with `e` the last element, preceded by its slash
unless `out0` ends where `..` must stop. -/
theorem backtrack_append (out0 e : List Char) (dd : Nat) (he : e ≠ [])
    (hs : '/' ∉ e.tail) (hdd : dd ≤ out0.length)
    (hb : out0.length = dd ∨ e.head? = some '/') :
    (out0 ++ e).take (backtrackLoop (out0 ++ e) dd ((out0 ++ e).length - 1)) = out0 := by
  obtain ⟨c, t, rfl⟩ := List.exists_cons_of_ne_nil he
  have hlen : (out0 ++ c :: t).length - 1 = out0.length + t.length := by simp
  rw [hlen, backtrackLoop_stop (out0 ++ c :: t) dd out0.length hdd]
  · simp
  · rcases hb with hb | hb
    · exact Or.inl hb
    · right
      simp only [List.head?_cons, Option.some.injEq] at hb
      subst hb
      rw [List.getElem?_append_right (le_refl _)]
      simp
  · intro i hi1 hi2
    have hi : i = out0.length + ((i - out0.length - 1) + 1) := by omega
    rw [hi, List.getElem?_append_right (by omega)]
    simp only [Nat.add_sub_cancel_left, List.getElem?_cons_succ]
    intro hcon
    have hmem := List.getElem?_mem hcon
    exact hs hmem

theorem NF_rooted_dd (out : List Char) (dd : Nat) (h : NF true out dd) : dd = 1 := by
  generalize hr : true = r at h
  induction h with
  | init => simp [← hr]
  | dots out0 hroot _ _ => simp [← hr] at hroot
  | elem out0 dd0 e _ _ ih => exact ih

theorem NF_dd_le (r : Bool) (out : List Char) (dd : Nat) (h : NF r out dd) :
    dd ≤ out.length := by
  induction h with
  | init => cases r <;> simp
  | dots out0 hroot _ _ => exact le_refl _
  | elem out0 dd0 e _ _ ih =>
    simp only [List.length_append]
    have : out0.length ≤ (slashIfNeeded r out0).length := by
      unfold slashIfNeeded
      split <;> simp
    omega

theorem NF_head (r : Bool) (out : List Char) (dd : Nat) (h : NF r out dd) :
    (r = true → out.head? = some '/') ∧ (r = false → out.head? ≠ some '/') := by
  induction h with
  | init => cases r <;> simp
  | dots out0 hroot _ ih =>
    subst hroot
    refine ⟨by simp, fun _ => ?_⟩
    have ih2 := ih.2 rfl
    cases out0 with
    | nil => simp
    | cons a t => simpa using ih2
  | elem out0 dd0 e hnf he ih =>
    obtain ⟨he1, _, _, he4⟩ := he
    obtain ⟨c, t, rfl⟩ := List.exists_cons_of_ne_nil he1
    have hc : c ≠ '/' := fun hcon => he4 (by simp [hcon])
    cases out0 with
    | nil =>
      cases r with
      | true => simpa using ih.1 rfl
      | false => simp [slashIfNeeded, hc]
    | cons a t0 =>
      have hh : (slashIfNeeded r (a :: t0) ++ c :: t).head? = some a := by
        unfold slashIfNeeded
        split <;> simp
      rw [hh]
      simpa using ih

theorem NF_isRooted (r : Bool) (out : List Char) (dd : Nat) (h : NF r out dd) :
    isRooted out = r := by
  have hh := NF_head r out dd h
  cases r with
  | true => simp [isRooted, hh.1 rfl]
  | false => simpa [isRooted] using hh.2 rfl

theorem pathElements_no_slash (path : List Char) : ∀ e ∈ pathElements path, '/' ∉ e := by
  induction path with
  | nil => simp [pathElements]
  | cons c rest ih =>
    intro e he
    by_cases hc : c = '/'
    · simp only [pathElements, hc, if_true, List.mem_cons] at he
      rcases he with he | he
      · simp [he]
      · exact ih e he
    · simp only [pathElements, hc, if_false] at he
      split at he
      · simp only [List.mem_singleton] at he
        subst he
        simp [Ne.symm hc]
      next x xs hx =>
        simp only [List.mem_cons] at he
        rcases he with he | he
        · subst he
          have := ih x (by simp [hx])
          simp [Ne.symm hc, this]
        · exact ih e (by simp [hx, he])

theorem NF_elemStep (r : Bool) (out : List Char) (dd : Nat) (e : List Char)
    (h : NF r out dd) (he : '/' ∉ e) :
    NF r (elemStep r (out, dd) e).1 (elemStep r (out, dd) e).2 := by
  unfold elemStep
  by_cases h1 : e = [] ∨ e = ['.']
  · simpa [h1] using h
  · simp only [h1, if_false]
    by_cases h2 : e = ['.', '.']
    · simp only [h2, if_true]
      by_cases h3 : out.length > dd
      · simp only [h3, if_true]
        cases h with
        | init => cases r <;> simp at h3
        | dots out0 _ _ => simp at h3
        | elem out0 _ e0 hnf hreal =>
          obtain ⟨q1, _, _, q4⟩ := hreal
          have hle := NF_dd_le r out0 dd hnf
          by_cases hs : (r = true ∧ out0.length ≠ 1) ∨ (r = false ∧ out0.length ≠ 0)
          · have : slashIfNeeded r out0 ++ e0 = out0 ++ ('/' :: e0) := by
              rw [slashIfNeeded, if_pos hs]
              simp
            rw [this, backtrack_append out0 ('/' :: e0) dd (by simp) (by simpa using q4) hle
              (Or.inr rfl)]
            exact hnf
          · have hsl : slashIfNeeded r out0 = out0 := by rw [slashIfNeeded, if_neg hs]
            have hdd : out0.length = dd := by
              cases r with
              | true =>
                have h1 := NF_rooted_dd out0 dd hnf
                have h2 : out0.length = 1 := by
                  by_contra hc
                  exact hs (Or.inl ⟨rfl, hc⟩)
                omega
              | false =>
                have h2 : out0.length = 0 := by
                  by_contra hc
                  exact hs (Or.inr ⟨rfl, hc⟩)
                omega
            rw [hsl, backtrack_append out0 e0 dd q1
              (fun hcon => q4 (List.mem_of_mem_tail hcon)) hle (Or.inl hdd)]
            exact hnf
      · simp only [h3, if_false]
        by_cases h4 : r = false
        · simp only [h4, if_true]
          have hle := NF_dd_le r out dd h
          have hdd : dd = out.length := by omega
          subst hdd
          subst h4
          exact NF.dots out rfl h
        · simpa [h4] using h
    · simp only [h2, if_false]
      refine NF.elem out dd e h ⟨?_, ?_, h2, he⟩
      · exact fun hcon => h1 (Or.inl hcon)
      · exact fun hcon => h1 (Or.inr hcon)

theorem NF_fold (r : Bool) (es : List (List Char)) (hes : ∀ e ∈ es, '/' ∉ e) :
    ∀ st : List Char × Nat, NF r st.1 st.2 →
      NF r (es.foldl (elemStep r) st).1 (es.foldl (elemStep r) st).2 := by
  induction es with
  | nil => exact fun st h => h
  | cons e es ih =>
    intro st h
    simp only [List.foldl_cons]
    exact ih (fun x hx => hes x (by simp [hx])) _
      (NF_elemStep r st.1 st.2 e h (hes e (by simp)))

theorem NF_initOut (r : Bool) : NF r (initOut r).1 (initOut r).2 := by
  have := @NF.init r
  cases r <;> simpa [initOut] using this

theorem NF_cleanFold (path : List Char) :
    NF (isRooted path) (cleanFold path).1 (cleanFold path).2 :=
  NF_fold _ _ (pathElements_no_slash _) _ (NF_initOut _)

theorem pathElements_append_slash (a b : List Char) :
    pathElements (a ++ '/' :: b) = pathElements a ++ pathElements b := by
  induction a with
  | nil => simp [pathElements]
  | cons c t ih =>
    by_cases hc : c = '/'
    · simp [pathElements, hc, ih]
    · simp only [List.cons_append, pathElements, hc, if_false]
      have ih2 : pathElements (t.append ('/' :: b)) = pathElements t ++ pathElements b := ih
      rw [ih2]
      cases h : pathElements t with
      | nil => 
        exfalso
        cases t with
        | nil => simp [pathElements] at h
        | cons d t2 =>
          simp only [pathElements] at h
          split at h
          · simp at h
          · split at h <;> simp at h
      | cons x xs => simp

theorem pathElements_single (e : List Char) (he : '/' ∉ e) : pathElements e = [e] := by
  induction e with
  | nil => simp [pathElements]
  | cons c t ih =>
    have hc : c ≠ '/' := fun hcon => he (by simp [hcon])
    have ht : '/' ∉ t := fun hcon => he (by simp [hcon])
    simp [pathElements, hc, ih ht]

theorem fold_pathElements_nil (r : Bool) (st : List Char × Nat) :
    (pathElements []).foldl (elemStep r) st = st := by
  simp [pathElements, elemStep_nil]

/-- Cleaning is done on the path elements: the cleaned path is the final `out`, or `.` when
that is empty. -/
theorem cleanChars_eq_fold (path : List Char) :
    cleanChars path = if (cleanFold path).1 = [] then ['.'] else (cleanFold path).1 := by
  unfold cleanChars
  by_cases hp : path = []
  · subst hp
    simp [cleanFold, isRooted, body, initOut, pathElements, elemStep_nil]
  · simp only [hp, if_false]
    by_cases hr : path.head? = some '/'
    · have hR : isRooted path = true := by simp [isRooted, hr]
      simp only [hr, if_true]
      rw [cleanLoop_eq_fold true path.length path.tail ['/'] 1 (by simp)]
      simp [cleanFold, hR, body, initOut]
    · have hR : isRooted path = false := by simp [isRooted, hr]
      simp only [hr, if_false]
      rw [cleanLoop_eq_fold false path.length path [] 0 (le_refl _)]
      simp [cleanFold, hR, body, initOut]

theorem elemStep_real (r : Bool) (st : List Char × Nat) (e : List Char) (he : RealElem e) :
    elemStep r st e = (slashIfNeeded r st.1 ++ e, st.2) := by
  obtain ⟨h1, h2, h3, _⟩ := he
  simp [elemStep, h1, h2, h3]

/-- Reading a state of `path.Clean` back as a path leads the loop into that same state. -/
theorem NF_replay (r : Bool) (out : List Char) (dd : Nat) (h : NF r out dd) :
    (pathElements (if r = true then out.tail else out)).foldl (elemStep r) (initOut r)
      = (out, dd) := by
  induction h with
  | init => cases r <;> simp [pathElements, elemStep_nil, initOut]
  | dots out0 hroot hnf ih =>
    subst hroot
    simp only [Bool.false_eq_true, if_false] at ih ⊢
    have hdd : (['.', '.'] : List Char) ≠ ['.'] := by decide
    by_cases h0 : out0.length > 0
    · simp only [h0, if_true, List.append_assoc, List.singleton_append]
      rw [pathElements_append_slash, List.foldl_append, ih,
        pathElements_single _ (by decide)]
      simp [elemStep, hdd, h0]
    · have : out0 = [] := List.length_eq_zero.1 (by omega)
      subst this
      simp only [List.length_nil, gt_iff_lt, lt_self_iff_false, if_false, List.nil_append]
      rw [pathElements_single _ (by decide)]
      simp [elemStep, hdd, initOut]
  | elem out0 dd0 e hnf he ih =>
    have hslash := he.2.2.2
    by_cases hs : (r = true ∧ out0.length ≠ 1) ∨ (r = false ∧ out0.length ≠ 0)
    · have hsl : slashIfNeeded r out0 = out0 ++ ['/'] := by rw [slashIfNeeded, if_pos hs]
      have hstrip : (if r = true then (slashIfNeeded r out0 ++ e).tail
          else slashIfNeeded r out0 ++ e) =
          (if r = true then out0.tail else out0) ++ '/' :: e := by
        rw [hsl]
        cases r with
        | false => simp
        | true =>
          have hh := (NF_head true out0 dd0 hnf).1 rfl
          cases out0 with
          | nil => simp at hh
          | cons a t => simp
      rw [hstrip, pathElements_append_slash, List.foldl_append, ih, pathElements_single _ hslash]
      simp [elemStep_real r _ e he]
    · have hsl : slashIfNeeded r out0 = out0 := by rw [slashIfNeeded, if_neg hs]
      rw [hsl]
      cases r with
      | true =>
        have hd := NF_rooted_dd out0 dd0 hnf
        have hl : out0.length = 1 := by
          by_contra hc
          exact hs (Or.inl ⟨rfl, hc⟩)
        have hh := (NF_head true out0 dd0 hnf).1 rfl
        have ho : out0 = ['/'] := by
          cases out0 with
          | nil => simp at hl
          | cons a t =>
            simp only [List.length_cons, Nat.add_left_eq_self, List.length_eq_zero] at hl
            simp only [List.head?_cons, Option.some.injEq] at hh
            simp [hl, hh]
        subst ho
        subst hd
        simp only [if_true, List.singleton_append, List.tail_cons]
        rw [pathElements_single _ hslash]
        simp [elemStep_real true _ e he, initOut, slashIfNeeded]
      | false =>
        have hl : out0.length = 0 := by
          by_contra hc
          exact hs (Or.inr ⟨rfl, hc⟩)
        have ho : out0 = [] := List.length_eq_zero.1 hl
        have hd : dd0 = 0 := by
          have := NF_dd_le false out0 dd0 hnf
          omega
        subst ho
        subst hd
        simp only [Bool.false_eq_true, if_false, List.nil_append]
        rw [pathElements_single _ hslash]
        simp [elemStep_real false _ e he, initOut, slashIfNeeded]

/-- A state of `path.Clean` with something in `out` is a path that cleaning leaves alone. -/
theorem cleanChars_of_NF (r : Bool) (out : List Char) (dd : Nat) (h : NF r out dd)
    (hne : out ≠ []) : cleanChars out = out ∧ cleanFold out = (out, dd) := by
  have hr := NF_isRooted r out dd h
  have hf : cleanFold out = (out, dd) := by
    have := NF_replay r out dd h
    unfold cleanFold body
    rw [hr]
    cases r <;> simpa using this
  rw [cleanChars_eq_fold, hf]
  simp [hne]

theorem cleanChars_ne_nil (path : List Char) : cleanChars path ≠ [] := by
  rw [cleanChars_eq_fold]
  split
  · simp
  · assumption

/-- Go `path.Clean` is idempotent. -/
theorem cleanChars_idem (path : List Char) : cleanChars (cleanChars path) = cleanChars path := by
  have hnf := NF_cleanFold path
  rw [cleanChars_eq_fold path]
  by_cases h : (cleanFold path).1 = []
  · simp only [h, if_true]
    decide
  · simp only [h, if_false]
    exact (cleanChars_of_NF _ _ _ hnf h).1

theorem isRooted_append (a b : List Char) (ha : a ≠ []) : isRooted (a ++ b) = isRooted a := by
  cases a with
  | nil => exact absurd rfl ha
  | cons c t => simp [isRooted]

theorem body_append (a b : List Char) (ha : a ≠ []) : body (a ++ b) = body a ++ b := by
  cases a with
  | nil => exact absurd rfl ha
  | cons c t =>
    unfold body
    rw [isRooted_append (c :: t) b (by simp)]
    split <;> simp

/-- Cleaning a cleaned path with more path after a slash: the loop goes on from the state
that produced the cleaned path. -/
theorem cleanFold_extend (r : Bool) (D : List Char) (dd : Nat) (h : NF r D dd) (hne : D ≠ [])
    (q : List Char) :
    isRooted (D ++ '/' :: q) = r ∧
    cleanFold (D ++ '/' :: q) = (pathElements q).foldl (elemStep r) (D, dd) := by
  have hr : isRooted (D ++ '/' :: q) = r := by
    rw [isRooted_append D _ hne]
    exact NF_isRooted r D dd h
  refine ⟨hr, ?_⟩
  have hf := (cleanChars_of_NF r D dd h hne).2
  unfold cleanFold at hf ⊢
  rw [hr, body_append D _ hne, pathElements_append_slash, List.foldl_append]
  rw [NF_isRooted r D dd h] at hf
  rw [hf]

theorem joinChars_single (x : List Char) (hx : x ≠ []) : joinChars [x] = cleanChars x := by
  have hl : x.length ≠ 0 := fun h => hx (List.length_eq_zero.1 h)
  simp [joinChars, joinBuf, hl, hx]

theorem joinChars_pair (a b : List Char) (ha : a ≠ []) :
    joinChars [a, b] = cleanChars (a ++ '/' :: b) := by
  have hl : a.length ≠ 0 := fun h => ha (List.length_eq_zero.1 h)
  have hl2 : 0 < a.length := Nat.pos_of_ne_zero hl
  simp [joinChars, joinBuf, hl, ha, hl2]

theorem dirPart_append (a e : List Char) (he : '/' ∉ e) :
    dirPart (a ++ '/' :: e) = a ++ ['/'] := by
  unfold dirPart
  have h1 : (a ++ '/' :: e).reverse = e.reverse ++ '/' :: a.reverse := by simp
  rw [h1, List.dropWhile_append_of_pos]
  · simp [List.dropWhile]
  · intro x hx
    have : x ≠ '/' := fun hcon => he (by simpa [hcon] using hx)
    simpa using this

/-- The shape of the jar path `path.Join(currentDir, DynamoDBLocal_Jar_Path)`: a cleaned
directory `D` that ends in the element `dynamodb-local`, a slash, `DynamoDBLocal.jar`. -/
theorem jarPath_shape (cd : List Char) :
    ∃ r D dd, NF r D dd ∧ D ≠ [] ∧ slashIfNeeded r D = D ++ ['/'] ∧
      joinChars [cd, DynamoDBLocal_Jar_Path.data] = D ++ '/' :: "DynamoDBLocal.jar".data := by
  have hdl : RealElem "dynamodb-local".data := by
    unfold RealElem
    decide
  have hjn : RealElem "DynamoDBLocal.jar".data := by
    unfold RealElem
    decide
  have hjar : DynamoDBLocal_Jar_Path.data =
      "dynamodb-local".data ++ '/' :: "DynamoDBLocal.jar".data := by decide
  have hel : pathElements DynamoDBLocal_Jar_Path.data =
      ["dynamodb-local".data, "DynamoDBLocal.jar".data] := by decide
  -- the elements the loop reads
  have hX : ∃ X, (∀ e ∈ X, '/' ∉ e) ∧
      joinChars [cd, DynamoDBLocal_Jar_Path.data] =
        (if ((X ++ ["dynamodb-local".data, "DynamoDBLocal.jar".data]).foldl
            (elemStep (isRooted (joinBuf [cd, DynamoDBLocal_Jar_Path.data])))
            (initOut (isRooted (joinBuf [cd, DynamoDBLocal_Jar_Path.data])))).1 = [] then ['.']
         else ((X ++ ["dynamodb-local".data, "DynamoDBLocal.jar".data]).foldl
            (elemStep (isRooted (joinBuf [cd, DynamoDBLocal_Jar_Path.data])))
            (initOut (isRooted (joinBuf [cd, DynamoDBLocal_Jar_Path.data])))).1) := by
    by_cases hcd : cd = []
    · subst hcd
      refine ⟨[], by simp, ?_⟩
      have hB : joinBuf [[], DynamoDBLocal_Jar_Path.data] = DynamoDBLocal_Jar_Path.data := by
        decide
      have hJ : joinChars [[], DynamoDBLocal_Jar_Path.data] =
          cleanChars DynamoDBLocal_Jar_Path.data := by
        decide
      rw [hJ, hB, cleanChars_eq_fold]
      have hb : body DynamoDBLocal_Jar_Path.data = DynamoDBLocal_Jar_Path.data := by decide
      simp only [cleanFold, hb, hel, List.nil_append]
    · refine ⟨pathElements (body cd), pathElements_no_slash _, ?_⟩
      have hB : joinBuf [cd, DynamoDBLocal_Jar_Path.data] =
          cd ++ '/' :: DynamoDBLocal_Jar_Path.data := by
        have hl : cd.length ≠ 0 := fun h => hcd (List.length_eq_zero.1 h)
        have hl2 : 0 < cd.length := Nat.pos_of_ne_zero hl
        simp [joinBuf, hl2, hcd]
      rw [joinChars_pair cd _ hcd, hB, cleanChars_eq_fold]
      simp only [cleanFold, body_append cd _ hcd, pathElements_append_slash, hel]
  obtain ⟨X, hXs, hJ⟩ := hX
  generalize isRooted (joinBuf [cd, DynamoDBLocal_Jar_Path.data]) = r at hJ
  have hS := NF_fold r X hXs (initOut r) (NF_initOut r)
  generalize hSdef : X.foldl (elemStep r) (initOut r) = S at hS hJ
  have hD : NF r (slashIfNeeded r S.1 ++ "dynamodb-local".data) S.2 := NF.elem S.1 S.2 _ hS hdl
  have hlen : 14 ≤ (slashIfNeeded r S.1 ++ "dynamodb-local".data).length := by
    have h14 : ("dynamodb-local".data).length = 14 := by decide
    rw [List.length_append, h14]
    omega
  have hne : slashIfNeeded r S.1 ++ "dynamodb-local".data ≠ [] := by
    intro hcon
    rw [hcon] at hlen
    simp at hlen
  have hsl : slashIfNeeded r (slashIfNeeded r S.1 ++ "dynamodb-local".data) =
      (slashIfNeeded r S.1 ++ "dynamodb-local".data) ++ ['/'] := by
    rw [slashIfNeeded, if_pos]
    cases r with
    | true => exact Or.inl ⟨rfl, by omega⟩
    | false => exact Or.inr ⟨rfl, by omega⟩
  refine ⟨r, slashIfNeeded r S.1 ++ "dynamodb-local".data, S.2, hD, hne, hsl, ?_⟩
  rw [hJ, List.foldl_append, hSdef]
  simp only [List.foldl_cons, List.foldl_nil]
  rw [elemStep_real r S _ hdl, elemStep_real r _ _ hjn]
  simp only [hsl]
  simp

/-! ### Events of download, extraction and process start -/

theorem extractAndWriteFile_events (dest : String) (f : ZipEntry) :
    ∀ e ∈ (extractAndWriteFile dest f).2,
      e.isDownload = false ∧ e.isExtraction = false ∧ e.isLaunch = false ∧
        ∀ c ok, e ≠ Event.start c ok := by
  intro e he
  unfold extractAndWriteFile at he
  split at he
  · simp at he
    subst he
    simp [Event.isDownload, Event.isExtraction, Event.isLaunch]
  · simp only at he
    split at he
    · simp at he
      rcases he with he | he | he <;> subst he <;>
        simp [Event.isDownload, Event.isExtraction, Event.isLaunch]
    · split at he
      · simp at he
        rcases he with he | he | he | he <;> subst he <;>
          simp [Event.isDownload, Event.isExtraction, Event.isLaunch]
      · simp at he
        rcases he with he | he | he | he | he | he <;> subst he <;>
          simp [Event.isDownload, Event.isExtraction, Event.isLaunch]

theorem extractAll_events (dest : String) (fs : List ZipEntry) :
    ∀ e ∈ (extractAll dest fs).2,
      e.isDownload = false ∧ e.isExtraction = false ∧ e.isLaunch = false ∧
        ∀ c ok, e ≠ Event.start c ok := by
  induction fs with
  | nil => simp [extractAll]
  | cons f fs ih =>
    intro e he
    have hf := extractAndWriteFile_events dest f
    unfold extractAll at he
    split at he
    next ev heq =>
      rw [heq] at hf
      simp only [List.mem_append] at he
      rcases he with he | he
      · exact hf e he
      · exact ih e he
    next o ev _ heq =>
      rw [heq] at hf
      exact hf e he

theorem countP_eq_zero_of_forall (p : Event → Bool) (l : List Event)
    (h : ∀ e ∈ l, p e = false) : l.countP p = 0 := by
  rw [List.countP_eq_zero]
  intro e he
  simp [h e he]

theorem startServer_returned (w : World) (port : String) (h : DynamoDBServer)
    (hs : (startServer w port).1 = .returned h) :
    h = newServer w.currentDir port ∧
    (startServer w port).2 =
      [.did .stdoutPipe "java" true, .start (newServer w.currentDir port).cmd true] := by
  unfold startServer at hs ⊢
  by_cases h1 : w.pipeFails = true
  · simp [h1] at hs
  · by_cases h2 : w.startFails = true
    · simp [h1, h2] at hs
    · simp [h1, h2] at hs ⊢
      exact ⟨hs.symm, by simp [newServer]⟩

theorem unzipLib_returned (w : World) (zipname : String) (ev : List Event)
    (hu : unzipLib w zipname = (.returned none, ev)) :
    downloads ev = 0 ∧ extractions ev = 1 ∧ ∀ e ∈ ev, e.isLaunch = false := by
  unfold unzipLib at hu
  by_cases h1 : w.openArchiveFails = true
  · simp [h1] at hu
  · simp only [h1, Bool.false_eq_true, if_false, Prod.mk.injEq] at hu
    obtain ⟨_, hev⟩ := hu
    subst hev
    have hx := extractAll_events
      (Join [Dir (Join [w.currentDir, DynamoDBLocal_Jar_Path])]) w.entries
    refine ⟨?_, ?_, ?_⟩
    · simp only [downloads, List.countP_append]
      rw [countP_eq_zero_of_forall _ _ (fun e he => (hx e he).1)]
      simp [List.countP_cons, Event.isDownload]
    · simp only [extractions, List.countP_append]
      rw [countP_eq_zero_of_forall _ _ (fun e he => (hx e he).2.1)]
      simp [List.countP_cons, Event.isExtraction]
    · intro e he
      simp only [List.mem_append, List.mem_cons, List.mem_singleton] at he
      rcases he with (he | he | he) | he
      · subst he; rfl
      · subst he; rfl
      · simp at he
      · exact (hx e he).2.2.1

theorem downloadZip_returned (w : World) (zipname : String)
    (hd : (downloadZip w zipname).1 = .returned ()) :
    downloads (downloadZip w zipname).2 = 1 ∧ extractions (downloadZip w zipname).2 = 0 ∧
      ∀ e ∈ (downloadZip w zipname).2, e.isLaunch = false := by
  unfold downloadZip at hd ⊢
  by_cases h1 : w.createZipFails = true
  · simp [h1] at hd
  · by_cases h2 : w.httpFails = true
    · simp [h1, h2] at hd
    · simp only [h1, h2, Bool.false_eq_true, if_false]
      refine ⟨?_, ?_, ?_⟩
      · simp [downloads, List.countP_cons, Event.isDownload]
      · simp [extractions, List.countP_cons, Event.isExtraction]
      · intro e he
        simp only [List.mem_cons, List.mem_singleton] at he
        rcases he with he | he | he | he | he | he
        · subst he; rfl
        · subst he; rfl
        · subst he; rfl
        · subst he; rfl
        · subst he; rfl
        · simp at he

theorem downloadLocalLib_returned (w : World) (ev : List Event)
    (hd : downloadLocalLib w = (.returned (), ev)) :
    downloads ev = (if w.zipStat = .notExist then 1 else 0) ∧ extractions ev = 1 ∧
      ∀ e ∈ ev, e.isLaunch = false := by
  unfold downloadLocalLib at hd
  simp only at hd
  split at hd
  next hdl =>
    split at hd
    next ev2 hu =>
      simp only [Prod.mk.injEq, true_and] at hd
      subst hd
      obtain ⟨u1, u2, u3⟩ := unzipLib_returned w _ ev2 hu
      by_cases hz : w.zipStat = .notExist
      · simp only [hz, if_true] at hdl ⊢
        obtain ⟨d1, d2, d3⟩ := downloadZip_returned w _ hdl
        refine ⟨?_, ?_, ?_⟩
        · simp only [downloads, List.countP_cons, List.countP_append] at d1 u1 ⊢
          simp [d1, u1, Event.isDownload]
        · simp only [extractions, List.countP_cons, List.countP_append] at d2 u2 ⊢
          simp [d2, u2, Event.isExtraction]
        · intro e he
          simp only [List.mem_cons, List.mem_append] at he
          rcases he with (he | he) | he
          · subst he; rfl
          · exact d3 e he
          · exact u3 e he
      · simp only [hz, if_false] at hdl ⊢
        refine ⟨?_, ?_, ?_⟩
        · simp only [downloads, List.countP_cons, List.countP_append] at u1 ⊢
          simp [u1, Event.isDownload]
        · simp only [extractions, List.countP_cons, List.countP_append] at u2 ⊢
          simp [u2, Event.isExtraction]
        · intro e he
          simp only [List.mem_cons, List.mem_append] at he
          rcases he with (he | he | he) | he
          · subst he; rfl
          · subst he; rfl
          · simp at he
          · exact u3 e he
    all_goals simp at hd
  all_goals simp at hd

theorem beforeLaunch_append_launch (ev : List Event) (c : Cmd)
    (h : ∀ e ∈ ev, e.isLaunch = false) :
    beforeLaunch (ev ++ [.did .stdoutPipe "java" true, .start c true]) =
      ev ++ [.did .stdoutPipe "java" true] := by
  induction ev with
  | nil => simp [beforeLaunch, List.takeWhile, Event.isLaunch]
  | cons e ev ih =>
    have he := h e (by simp)
    have ih' := ih (fun x hx => h x (by simp [hx]))
    simp only [beforeLaunch] at ih' ⊢
    simp [List.takeWhile, he, ih']

/-- The shape of a run of `Start` that returns: the events before the launch, then the
successful `s.cmd.Start()`; how many downloads and extractions there were is decided by what
`os.Stat` said about the jar and the zip. -/
theorem Start_returned (w : World) (port : String) (h : DynamoDBServer) (tr : List Event)
    (hstart : Start w port = (.returned h, tr)) :
    h = newServer w.currentDir port ∧
    tr = beforeLaunch tr ++ [.start (newServer w.currentDir port).cmd true] ∧
    downloads (beforeLaunch tr) =
      (if w.jarStat = .notExist ∧ w.zipStat = .notExist then 1 else 0) ∧
    extractions (beforeLaunch tr) = (if w.jarStat = .notExist then 1 else 0) := by
  unfold Start at hstart
  simp only at hstart
  by_cases hj : w.jarStat = .notExist
  · simp only [hj, if_true] at hstart
    split at hstart
    next ev hd =>
      simp only [Prod.mk.injEq] at hstart
      obtain ⟨hs, htr⟩ := hstart
      obtain ⟨s1, s2⟩ := startServer_returned w port h hs
      obtain ⟨d1, d2, d3⟩ := downloadLocalLib_returned w ev hd
      rw [s2] at htr
      subst htr
      have hpre : ∀ e ∈ (Event.stat (Join [w.currentDir, DynamoDBLocal_Jar_Path]) ::
          Event.log "No DynamoDBLocal lib found. Downloading it for testing purpose" :: ev),
          e.isLaunch = false := by
        intro e he
        simp only [List.mem_cons] at he
        rcases he with he | he | he
        · subst he; rfl
        · subst he; rfl
        · exact d3 e he
      have hb := beforeLaunch_append_launch _ (newServer w.currentDir port).cmd hpre
      simp only [List.cons_append] at hb
      simp only [List.cons_append, hb]
      refine ⟨s1, by simp, ?_, ?_⟩
      · simp only [downloads, List.countP_cons, List.countP_append] at d1 ⊢
        simp [d1, hj, Event.isDownload]
      · simp only [extractions, List.countP_cons, List.countP_append] at d2 ⊢
        simp [d2, hj, Event.isExtraction]
    all_goals simp at hstart
  · simp only [hj, if_false, Prod.mk.injEq] at hstart
    obtain ⟨hs, htr⟩ := hstart
    obtain ⟨s1, s2⟩ := startServer_returned w port h hs
    rw [s2] at htr
    subst htr
    refine ⟨s1, ?_, ?_, ?_⟩
    · simp [beforeLaunch, List.takeWhile, Event.isLaunch]
    · simp [hj, beforeLaunch, List.takeWhile, Event.isLaunch, downloads, List.countP_cons,
        Event.isDownload]
    · simp [hj, beforeLaunch, List.takeWhile, Event.isLaunch, extractions, List.countP_cons,
        Event.isExtraction]

theorem extractAndWriteFile_failures (dest : String) (f : ZipEntry)
    (h : (extractAndWriteFile dest f).1 = .returned none) :
    ∀ e ∈ (extractAndWriteFile dest f).2, e.isFailure = true →
      ∃ t, e = Event.did .mkdirAll t false := by
  intro e he hf
  unfold extractAndWriteFile at h he
  cases h1 : f.openFails
  · simp only [h1, Bool.false_eq_true, if_false] at h he
    cases h2 : f.isDir
    · simp only [h2, Bool.false_eq_true, if_false] at h he
      cases h3 : f.openFileFails
      · simp only [h3, Bool.false_eq_true, if_false] at h he
        cases h4 : f.copyFails
        · simp only [List.mem_cons, List.mem_singleton, List.mem_nil_iff, or_false] at he
          rcases he with he | he | he | he | he | he <;> subst he
          · simp [Event.isFailure] at hf
          · cases h5 : f.mkdirFails
            · simp [h5, Event.isFailure] at hf
            · exact ⟨_, rfl⟩
          · simp [Event.isFailure] at hf
          · simp [h4, Event.isFailure] at hf
          · simp [Event.isFailure] at hf
          · simp [Event.isFailure] at hf
        · split at h <;> simp [h4] at h
      · simp only [h3, if_true] at h
        split at h <;> simp at h
    · simp only [h2, if_true] at h he
      simp only [List.mem_cons, List.mem_singleton, List.mem_nil_iff, or_false] at he
      rcases he with he | he | he <;> subst he
      · simp [Event.isFailure] at hf
      · cases h5 : f.mkdirFails
        · simp [h5, Event.isFailure] at hf
        · exact ⟨_, rfl⟩
      · simp [Event.isFailure] at hf
  · simp [h1] at h

theorem extractAll_failures (dest : String) (fs : List ZipEntry)
    (h : (extractAll dest fs).1 = .returned none) :
    ∀ e ∈ (extractAll dest fs).2, e.isFailure = true →
      ∃ t, e = Event.did .mkdirAll t false := by
  induction fs with
  | nil => simp [extractAll]
  | cons f fs ih =>
    intro e he hf
    unfold extractAll at h he
    split at h
    next ev heq =>
      rw [heq] at he
      simp only [List.mem_append] at he
      rcases he with he | he
      · have h1 : (extractAndWriteFile dest f).1 = .returned none := by rw [heq]
        have h2 : e ∈ (extractAndWriteFile dest f).2 := by rw [heq]; exact he
        exact extractAndWriteFile_failures dest f h1 e h2 hf
      · exact ih h e he hf
    next o ev hne heq =>
      simp only at h
      subst h
      exact False.elim (by simp at hne)

/-- Of the steps of download, extraction and process start, a failed `os.MkdirAll` is the only
one after which `Start` still returns. -/
theorem Start_returned_failures (w : World) (port : String) (h : DynamoDBServer)
    (tr : List Event) (hstart : Start w port = (.returned h, tr)) :
    ∀ e ∈ tr, e.isFailure = true → ∃ t, e = Event.did .mkdirAll t false := by
  have hS : ∀ h, (startServer w port).1 = .returned h →
      ∀ e ∈ (startServer w port).2, e.isFailure = false := by
    intro h hh e he
    rw [(startServer_returned w port h hh).2] at he
    simp only [List.mem_cons, List.mem_singleton, List.mem_nil_iff, or_false] at he
    rcases he with he | he <;> subst he <;> rfl
  have hU : ∀ z ev, unzipLib w z = (.returned none, ev) →
      ∀ e ∈ ev, e.isFailure = true → ∃ t, e = Event.did .mkdirAll t false := by
    intro z ev hu e he hf
    unfold unzipLib at hu
    cases h1 : w.openArchiveFails
    · simp only [h1, Bool.false_eq_true, if_false, Prod.mk.injEq] at hu
      obtain ⟨hu1, hu2⟩ := hu
      subst hu2
      simp only [List.mem_append, List.mem_cons, List.mem_singleton, List.mem_nil_iff,
        or_false] at he
      rcases he with (he | he) | he
      · subst he
        simp [Event.isFailure] at hf
      · subst he
        simp [Event.isFailure] at hf
      · exact extractAll_failures _ _ hu1 e he hf
    · simp [h1] at hu
  have hZ : ∀ z, (downloadZip w z).1 = .returned () →
      ∀ e ∈ (downloadZip w z).2, e.isFailure = false := by
    intro z hz e he
    unfold downloadZip at hz he
    cases h1 : w.createZipFails
    · cases h2 : w.httpFails
      · cases h3 : w.bodyCopyFails
        · simp only [h1, h2, h3, Bool.false_eq_true, if_false, List.mem_cons,
            List.mem_singleton, List.mem_nil_iff, or_false] at he
          rcases he with he | he | he | he | he <;> subst he <;> rfl
        · simp [h1, h2, h3] at hz
      · simp [h1, h2] at hz
    · simp [h1] at hz
  have hD : ∀ ev, downloadLocalLib w = (.returned (), ev) →
      ∀ e ∈ ev, e.isFailure = true → ∃ t, e = Event.did .mkdirAll t false := by
    intro ev hd e he hf
    unfold downloadLocalLib at hd
    simp only at hd
    split at hd
    next hdl =>
      split at hd
      next ev2 hu =>
        simp only [Prod.mk.injEq, true_and] at hd
        subst hd
        simp only [List.mem_append, List.mem_cons] at he
        rcases he with (he | he) | he
        · subst he
          simp [Event.isFailure] at hf
        · exfalso
          by_cases hz : w.zipStat = .notExist
          · simp only [hz, if_true] at hdl he
            have := hZ _ hdl e he
            simp [this] at hf
          · simp only [hz, if_false, List.mem_singleton] at he
            subst he
            simp [Event.isFailure] at hf
        · exact hU _ ev2 hu e he hf
      all_goals simp at hd
    all_goals simp at hd
  intro e he hf
  unfold Start at hstart
  simp only at hstart
  by_cases hj : w.jarStat = .notExist
  · simp only [hj, if_true] at hstart
    split at hstart
    next ev hd =>
      simp only [Prod.mk.injEq] at hstart
      obtain ⟨hs, htr⟩ := hstart
      subst htr
      simp only [List.cons_append, List.mem_cons, List.mem_append] at he
      rcases he with he | he | he | he
      · subst he
        simp [Event.isFailure] at hf
      · subst he
        simp [Event.isFailure] at hf
      · exact hD ev hd e he hf
      · have := hS h hs e he
        simp [this] at hf
    all_goals simp at hstart
  · simp only [hj, if_false, Prod.mk.injEq] at hstart
    obtain ⟨hs, htr⟩ := hstart
    subst htr
    simp only [List.mem_cons] at he
    rcases he with he | he
    · subst he
      simp [Event.isFailure] at hf
    · have := hS h hs e he
      simp [this] at hf

/-! ### Schedules -/

theorem run_append (xs ys : List Action) (s : State) :
    run (xs ++ ys) s = (run xs s).bind (run ys) := by
  induction xs generalizing s with
  | nil => simp [run]
  | cons a xs ih =>
    simp only [List.cons_append, run]
    cases step a s with
    | none => simp
    | some s1 => simpa using ih s1

theorem run_snoc (xs : List Action) (a : Action) (s0 s : State) :
    run (xs ++ [a]) s0 = some s ↔ ∃ s1, run xs s0 = some s1 ∧ step a s1 = some s := by
  rw [run_append]
  cases h : run xs s0 with
  | none => simp
  | some s1 =>
    simp only [Option.some_bind, run, Option.some.injEq, exists_eq_left']
    cases step a s1 <;> simp

/-- A property that holds at the start and is kept by every step holds after every schedule. -/
theorem run_invariant (P : State → Prop) (hstep : ∀ a s s', P s → step a s = some s' → P s')
    (acts : List Action) (s0 s : State) (h0 : P s0) (hrun : run acts s0 = some s) : P s := by
  induction acts generalizing s0 with
  | nil =>
    simp only [run, Option.some.injEq] at hrun
    exact hrun ▸ h0
  | cons a acts ih =>
    simp only [run] at hrun
    cases hs : step a s0 with
    | none => simp [hs] at hrun
    | some s1 =>
      rw [hs] at hrun
      exact ih s1 (hstep a s0 s1 h0 hs) hrun

theorem inv_init (currentDir port : String) (pid : Nat) (lines : List String) :
    Inv currentDir port lines (initState currentDir port pid lines) := by
  constructor <;> simp [initState]

theorem inv_step (currentDir port : String) (lines : List String) (a : Action) (s s' : State)
    (hinv : Inv currentDir port lines s) (h : step a s = some s') :
    Inv currentDir port lines s' := by
  obtain ⟨h1, h2, h3, h4, h5, h6, h7, h8, h9⟩ := hinv
  cases a <;> simp only [step] at h
  case childCloseStdout =>
    split at h <;> simp at h
    subst h
    exact ⟨h1, h2, h3, h4, h5, h6, h7, h8, h9⟩
  case childExit =>
    split at h <;> simp at h
    subst h
    exact ⟨h1, h2, h3, fun _ => rfl, h5, h6, h7, h8, h9⟩
  case timerFire =>
    split at h <;> simp at h
    subst h
    exact ⟨h1, h2, h3, h4, h5, h6, h7, h8, fun _ => rfl⟩
  case watchScan =>
    split at h
    next hw =>
      split at h
      next text rest hout =>
        simp only [Option.some.injEq] at h
        subst h
        have hmem : text ∈ lines := h2 text (by simp [hout])
        refine ⟨h1, fun t ht => h2 t (by simp [hout, ht]), ?_, ?_, h5, h6, h7, ?_, h9⟩
        · intro hd
          have := h3 hd
          simp [hw] at this
        · intro hc
          split at hc <;> simp at hc
        · intro hc
          by_cases hm : stringsContains text readyMarker = true
          · exact ⟨text, hmem, by simp, hm⟩
          · simp only [hm, Bool.false_eq_true, if_false] at hc
            have hc' : s.endedBy = some .ready ∨ 0 < s.readyBuf ∨ s.watch = .send := by
              rcases hc with hc | hc | hc
              · exact Or.inl hc
              · exact Or.inr (Or.inl hc)
              · simp at hc
            obtain ⟨t, ht1, ht2, ht3⟩ := h8 hc'
            exact ⟨t, ht1, by simp [ht2], ht3⟩
      next hout =>
        split at h <;> simp at h
        subst h
        refine ⟨h1, h2, ?_, ?_, h5, h6, h7, ?_, h9⟩
        · intro hd
          have := h3 hd
          simp [hw] at this
        · intro hc
          simp at hc
        · intro hc
          have hc' : s.endedBy = some .ready ∨ 0 < s.readyBuf ∨ s.watch = .send := by
            rcases hc with hc | hc | hc
            · exact Or.inl hc
            · exact Or.inr (Or.inl hc)
            · simp at hc
          exact h8 hc'
    next => simp at h
  case watchSend =>
    split at h <;> simp at h
    next hw =>
      subst h
      refine ⟨h1, h2, ?_, ?_, h5, h6, h7, ?_, h9⟩
      · intro hd
        have := h3 hd
        simp [hw.1] at this
      · intro hc
        simp at hc
      · intro _
        exact h8 (Or.inr (Or.inr hw.1))
  case watchWait =>
    split at h <;> simp at h
    next hw =>
      subst h
      refine ⟨h1, h2, ?_, fun _ => hw.2, h5, h6, h7, ?_, h9⟩
      · intro hd
        have := h3 hd
        simp [hw.1] at this
      · intro hc
        have hc' : s.endedBy = some .ready ∨ 0 < s.readyBuf ∨ s.watch = .send := by
          rcases hc with hc | hc | hc
          · exact Or.inl hc
          · exact Or.inr (Or.inl hc)
          · simp at hc
        exact h8 hc'
  case watchClose =>
    split at h <;> simp at h
    next hw =>
      subst h
      refine ⟨h1, h2, fun _ => rfl, fun _ => h4 (Or.inl hw), fun _ => rfl, h6, h7, ?_, h9⟩
      intro hc
      have hc' : s.endedBy = some .ready ∨ 0 < s.readyBuf ∨ s.watch = .send := by
        rcases hc with hc | hc | hc
        · exact Or.inl hc
        · exact Or.inr (Or.inl hc)
        · simp at hc
      obtain ⟨t, ht1, ht2, ht3⟩ := h8 hc'
      exact ⟨t, ht1, by simp [ht2], ht3⟩
  case selectReady =>
    split at h <;> simp at h
    next hw =>
      subst h
      refine ⟨h1, h2, h3, h4, h5, ?_, ?_, ?_, ?_⟩
      · intro hc
        simp at hc
      · intro _
        exact ⟨by simp [h1], Or.inl rfl⟩
      · intro _
        obtain ⟨t, ht1, ht2, ht3⟩ := h8 (Or.inr (Or.inl hw.2))
        exact ⟨t, ht1, by simp [ht2], ht3⟩
      · intro hc
        simp at hc
  case selectTimeout =>
    split at h <;> simp at h
    next hw =>
      subst h
      refine ⟨h1, h2, h3, h4, h5, ?_, ?_, ?_, fun _ => hw.2⟩
      · intro hc
        simp at hc
      · intro _
        exact ⟨by simp [h1], Or.inr rfl⟩
      · intro hc
        have hc' : s.endedBy = some .ready ∨ 0 < s.readyBuf ∨ s.watch = .send := by
          rcases hc with hc | hc | hc
          · simp at hc
          · exact Or.inr (Or.inl hc)
          · exact Or.inr (Or.inr hc)
        exact h8 hc'
  case stopCall =>
    split at h <;> simp at h
    next hw =>
      subst h
      refine ⟨h1, h2, h3, h4, h5, ?_, ?_, ?_, h9⟩
      · intro hc
        simp at hc
      · intro _
        exact h7 (by simp [hw])
      · intro hc
        obtain ⟨t, ht1, ht2, ht3⟩ := h8 hc
        exact ⟨t, ht1, by simp [ht2], ht3⟩
  case stopReturn =>
    split at h <;> simp at h
    next hw =>
      subst h
      refine ⟨h1, h2, h3, h4, fun _ => hw.2, ?_, ?_, h8, h9⟩
      · intro hc
        simp at hc
      · intro _
        exact h7 (by simp [hw.1])

theorem hist_step (pre : List Action) (a : Action) (s s' : State) (hh : Hist pre s)
    (h : step a s = some s') : Hist (pre ++ [a]) s' := by
  obtain ⟨h1, h2, h3⟩ := hh
  have up : ∀ l : List Action, List.Sublist l pre → List.Sublist l (pre ++ [a]) :=
    fun l hl => hl.trans (List.sublist_append_left pre [a])
  cases a <;> simp only [step] at h
  case childCloseStdout =>
    split at h <;> simp at h
    subst h
    exact ⟨fun e => up _ (h1 e), fun e => up _ (h2 e), fun e => up _ (h3 e)⟩
  case childExit =>
    split at h <;> simp at h
    subst h
    have hx : List.Sublist [Action.childExit] (pre ++ [Action.childExit]) :=
      List.sublist_append_right pre [Action.childExit]
    exact ⟨fun _ => hx, fun e => up _ (h2 e), fun e => up _ (h3 e)⟩
  case timerFire =>
    split at h <;> simp at h
    subst h
    exact ⟨fun e => up _ (h1 e), fun e => up _ (h2 e), fun e => up _ (h3 e)⟩
  case watchScan =>
    split at h
    next hw =>
      split at h
      · simp only [Option.some.injEq] at h
        subst h
        refine ⟨fun e => up _ (h1 e), ?_, ?_⟩ <;> intro e <;> split at e <;> simp at e
      · split at h <;> simp at h
        subst h
        refine ⟨fun e => up _ (h1 e), ?_, ?_⟩ <;> intro e <;> simp at e
    next => simp at h
  case watchSend =>
    split at h <;> simp at h
    subst h
    refine ⟨fun e => up _ (h1 e), ?_, ?_⟩ <;> intro e <;> simp at e
  case watchWait =>
    split at h <;> simp at h
    next hw =>
      subst h
      refine ⟨fun e => up _ (h1 e), ?_, ?_⟩
      · intro _
        have := (h1 hw.2).append (List.Sublist.refl [Action.watchWait])
        simpa using this
      · intro e
        simp at e
  case watchClose =>
    split at h <;> simp at h
    next hw =>
      subst h
      refine ⟨fun e => up _ (h1 e), ?_, ?_⟩
      · intro e
        simp at e
      · intro _
        have := (h2 hw).append (List.Sublist.refl [Action.watchClose])
        simpa using this
  case selectReady =>
    split at h <;> simp at h
    subst h
    exact ⟨fun e => up _ (h1 e), fun e => up _ (h2 e), fun e => up _ (h3 e)⟩
  case selectTimeout =>
    split at h <;> simp at h
    subst h
    exact ⟨fun e => up _ (h1 e), fun e => up _ (h2 e), fun e => up _ (h3 e)⟩
  case stopCall =>
    split at h <;> simp at h
    subst h
    exact ⟨fun e => up _ (h1 e), fun e => up _ (h2 e), fun e => up _ (h3 e)⟩
  case stopReturn =>
    split at h <;> simp at h
    subst h
    exact ⟨fun e => up _ (h1 e), fun e => up _ (h2 e), fun e => up _ (h3 e)⟩

theorem hist_run (currentDir port : String) (pid : Nat) (lines : List String)
    (pre : List Action) :
    ∀ s, run pre (initState currentDir port pid lines) = some s → Hist pre s := by
  induction pre using List.reverseRecOn with
  | nil =>
    intro s h
    simp only [run, Option.some.injEq] at h
    subst h
    constructor <;> simp [initState]
  | append_singleton xs a ih =>
    intro s h
    obtain ⟨s1, hs1, hstep⟩ := (run_snoc xs a _ s).1 h
    exact hist_step xs a s1 s (ih s1 hs1) hstep

theorem inv_run (currentDir port : String) (pid : Nat) (lines : List String)
    (acts : List Action) (s : State)
    (hrun : run acts (initState currentDir port pid lines) = some s) :
    Inv currentDir port lines s :=
  run_invariant (Inv currentDir port lines) (inv_step currentDir port lines) acts _ s
    (inv_init currentDir port pid lines) hrun

theorem run_cons_split (pre post : List Action) (a : Action) (s0 s : State)
    (h : run (pre ++ a :: post) s0 = some s) :
    ∃ s1 s2, run pre s0 = some s1 ∧ step a s1 = some s2 ∧ run post s2 = some s := by
  rw [run_append] at h
  cases h1 : run pre s0 with
  | none => simp [h1] at h
  | some s1 =>
    rw [h1] at h
    simp only [Option.some_bind, run] at h
    cases h2 : step a s1 with
    | none => simp [h2] at h
    | some s2 =>
      rw [h2] at h
      exact ⟨s1, s2, rfl, h2, by simpa using h⟩

/-- C1: in every run of the system, a return of `Stop` comes after `close(s.done)`, which
comes after the return of `s.cmd.Wait()`, which comes after the exit of the child; at the
moment `Stop` returns, `done` is closed, `watch` is over and the child has exited. -/
theorem stop_returns_after_child_exit (currentDir port : String) (pid : Nat)
    (lines : List String) (pre post : List Action)
    (hrun : (run (pre ++ Action.stopReturn :: post)
      (initState currentDir port pid lines)).isSome = true) :
    List.Sublist [Action.childExit, Action.watchWait, Action.watchClose] pre ∧
    ∃ s1, run pre (initState currentDir port pid lines) = some s1 ∧
      s1.doneClosed = true ∧ s1.watch = .finished ∧ s1.exited = true := by
  obtain ⟨s, hs⟩ := Option.isSome_iff_exists.1 hrun
  obtain ⟨s1, s2, h1, h2, _⟩ := run_cons_split pre post _ _ s hs
  have hinv := inv_run currentDir port pid lines pre s1 h1
  have hh := hist_run currentDir port pid lines pre s1 h1
  have hd : s1.doneClosed = true := by
    simp only [step] at h2
    split at h2 <;> simp at h2
    next hw => exact hw.2
  have hf := hinv.done_fin hd
  exact ⟨hh.closed hf, s1, h1, hd, hf, hinv.fin_exit (Or.inr hf)⟩

/-- A run in which `Stop` returns: the marker is read, `Stop` is called, the child exits. -/
theorem stop_returns_after_child_exit_witness :
    (run ([Action.watchScan, .watchSend, .selectReady, .stopCall, .childExit, .watchScan,
        .watchWait, .watchClose] ++ Action.stopReturn :: [])
      (initState "/pkg" "8000" 4242 [readyMarker])).isSome = true ∧
    (List.Sublist [Action.childExit, Action.watchWait, Action.watchClose]
      [Action.watchScan, .watchSend, .selectReady, .stopCall, .childExit, .watchScan,
       .watchWait, .watchClose] ∧
    ∃ s1, run [Action.watchScan, .watchSend, .selectReady, .stopCall, .childExit, .watchScan,
       .watchWait, .watchClose] (initState "/pkg" "8000" 4242 [readyMarker]) = some s1 ∧
      s1.doneClosed = true ∧ s1.watch = .finished ∧ s1.exited = true) :=
  ⟨by decide,
   stop_returns_after_child_exit "/pkg" "8000" 4242 [readyMarker]
    [Action.watchScan, .watchSend, .selectReady, .stopCall, .childExit, .watchScan,
       .watchWait, .watchClose] [] (by decide)⟩

/-- C2: whenever `startServer` has returned, `watch` has read (and logged) a line of the
child's output that contains the readiness marker, or the timer has fired. -/
theorem startServer_returns_after_marker_or_timeout (currentDir port : String) (pid : Nat)
    (lines : List String) (acts : List Action) (s : State)
    (hrun : run acts (initState currentDir port pid lines) = some s)
    (hret : s.caller ≠ .select) :
    (∃ text, text ∈ lines ∧ LogEntry.childLine text ∈ s.log ∧
      stringsContains text readyMarker = true) ∨ s.timerFired = true := by
  have hinv := inv_run currentDir port pid lines acts s hrun
  rcases (hinv.ret_some hret).2 with h | h
  · exact Or.inl (hinv.ready_marker (Or.inl h))
  · exact Or.inr (hinv.timeout_fired h)

/-- A run in which `startServer` returns through the `ready` case. -/
theorem startServer_returns_after_marker_or_timeout_witness :
    run [Action.watchScan, .watchScan, .watchSend, .selectReady]
      (initState "/pkg" "8000" 4242 ["Port: 8000", readyMarker]) = some readyReturnedState ∧
    readyReturnedState.caller ≠ .select ∧
    ((∃ text, text ∈ ["Port: 8000", readyMarker] ∧
      LogEntry.childLine text ∈ readyReturnedState.log ∧
      stringsContains text readyMarker = true) ∨ readyReturnedState.timerFired = true) :=
  ⟨by decide, by decide,
   startServer_returns_after_marker_or_timeout "/pkg" "8000" 4242 ["Port: 8000", readyMarker]
    [Action.watchScan, .watchScan, .watchSend, .selectReady] readyReturnedState
    (by decide) (by decide)⟩

/-- C6: in every reachable state in which `startServer` waits in its `select` and the timer has
fired, the timeout case can be taken; taking it makes `startServer` return, and what it returns
is the handle `s` built from the port (the command and the `done` channel), the very value
every run that ends through the `ready` case returns. The system has no other move for the
timeout case: nothing panics, nothing exits. -/
theorem timeout_returns_same_handle (currentDir port : String) (pid : Nat)
    (lines : List String) (acts : List Action) (s : State)
    (hrun : run acts (initState currentDir port pid lines) = some s)
    (hsel : s.caller = .select) (hfired : s.timerFired = true) :
    ∃ s', step .selectTimeout s = some s' ∧ s'.caller = .holding ∧
      s'.endedBy = some .timeout ∧
      s'.result = some (newServer currentDir port) ∧
      (newServer currentDir port).done = ChanId.done ∧
      ∀ acts2 s2, run acts2 (initState currentDir port pid lines) = some s2 →
        s2.endedBy = some .ready → s2.result = s'.result := by
  have hinv := inv_run currentDir port pid lines acts s hrun
  refine ⟨{ s with caller := .holding, result := some s.handle, endedBy := some .timeout },
    by simp [step, hsel, hfired], rfl, rfl, by simp [hinv.handle], rfl, ?_⟩
  intro acts2 s2 h2 he
  have hinv2 := inv_run currentDir port pid lines acts2 s2 h2
  have hc : s2.caller ≠ .select := by
    intro hc
    have := (hinv2.sel_none hc).2
    simp [this] at he
  simp [(hinv2.ret_some hc).1, hinv.handle]

/-- The timeout case of C6 at a child that prints nothing. -/
theorem timeout_returns_same_handle_witness :
    run [Action.timerFire] (initState "/pkg" "8000" 4242 []) =
        some (timerFiredState "/pkg" "8000" 4242 []) ∧
    (timerFiredState "/pkg" "8000" 4242 []).caller = .select ∧
    (timerFiredState "/pkg" "8000" 4242 []).timerFired = true ∧
    ∃ s', step .selectTimeout (timerFiredState "/pkg" "8000" 4242 []) = some s' ∧
      s'.caller = .holding ∧ s'.endedBy = some .timeout ∧
      s'.result = some (newServer "/pkg" "8000") ∧
      (newServer "/pkg" "8000").done = ChanId.done ∧
      ∀ acts2 s2, run acts2 (initState "/pkg" "8000" 4242 []) = some s2 →
        s2.endedBy = some .ready → s2.result = s'.result :=
  ⟨by decide, by decide, by decide,
   timeout_returns_same_handle "/pkg" "8000" 4242 [] [Action.timerFire]
    (timerFiredState "/pkg" "8000" 4242 []) (by decide) (by decide) (by decide)⟩

/-- C7, the code at a run that ends by timeout: the child prints nothing, the timer fires, the
`select` takes the timeout case and `startServer` returns; the log is empty, so nothing
reports the timeout. In no state does taking the timeout case add an entry to the log. -/
theorem timeout_leaves_no_log_entry (currentDir port : String) (pid : Nat) :
    (∃ s, run [Action.timerFire, .selectTimeout] (initState currentDir port pid []) = some s ∧
      s.caller = .holding ∧ s.endedBy = some .timeout ∧
      s.result = some (newServer currentDir port) ∧ s.log = []) ∧
    ∀ s s', step .selectTimeout s = some s' → s'.log = s.log := by
  refine ⟨⟨_, rfl, rfl, rfl, rfl, rfl⟩, ?_⟩
  intro s s' h
  simp only [step] at h
  split at h <;> simp at h
  subst h
  rfl

theorem inv3_step (a : Action) (s s' : State) (hinv : Inv3 s) (h : step a s = some s') :
    Inv3 s' := by
  obtain ⟨h1, h2, h3, h4, h5, h6, h7⟩ := hinv
  cases a <;> simp only [step] at h
  case childCloseStdout =>
    split at h <;> simp at h
    subst h
    exact ⟨h1, h2, h3, h4, h5, h6, h7⟩
  case childExit =>
    split at h <;> simp at h
    subst h
    exact ⟨h1, h2, h3, h4, h5, h6, h7⟩
  case timerFire =>
    split at h <;> simp at h
    subst h
    exact ⟨h1, h2, h3, h4, h5, h6, h7⟩
  case watchScan =>
    split at h
    next hw =>
      split at h
      next text rest hout =>
        simp only [Option.some.injEq] at h
        subst h
        have hm : stringsContains text readyMarker = true := h1 text (by simp [hout])
        refine ⟨fun t ht => h1 t (by simp [hout, ht]), ?_, h3, h4, ?_, h6, h7⟩
        · simp only [hm, if_true]
          simp only [hout, hw, List.length_cons] at h2
          simp at h2 ⊢
          omega
        · simp [hm]
      next hout =>
        exfalso
        simp only [hout, hw, List.length_nil] at h2
        simp at h2
        split at h2 <;> omega
    next => simp at h
  case watchSend =>
    split at h <;> simp at h
    next hw =>
      subst h
      refine ⟨h1, ?_, ?_, h4, Or.inl rfl, h6, h7⟩
      · simp only [hw.1, if_true] at h2
        simp
        omega
      · have := hw.2
        simp only [readyCap] at this
        show s.readyBuf + 1 ≤ 1
        omega
  case watchWait =>
    split at h <;> simp at h
    next hw =>
      rcases h5 with h5 | h5 <;> simp [h5] at hw
  case watchClose =>
    split at h <;> simp at h
    next hw =>
      rcases h5 with h5 | h5 <;> simp [h5] at hw
  case selectReady =>
    split at h <;> simp at h
    next hw =>
      subst h
      have he := h4 hw.1
      refine ⟨h1, ?_, ?_, ?_, h5, h6, h7⟩
      · simp only [he] at h2
        simp at h2 ⊢
        omega
      · show s.readyBuf - 1 ≤ 1
        omega
      · intro hc
        simp at hc
  case selectTimeout =>
    split at h <;> simp at h
    next hw =>
      subst h
      have he := h4 hw.1
      refine ⟨h1, ?_, h3, ?_, h5, h6, h7⟩
      · simp only [he] at h2
        simp at h2 ⊢
        omega
      · intro hc
        simp at hc
  case stopCall =>
    split at h <;> simp at h
    next hw =>
      subst h
      refine ⟨h1, h2, h3, ?_, h5, h6, h7⟩
      intro hc
      simp at hc
  case stopReturn =>
    split at h <;> simp at h
    next hw =>
      simp [h6] at hw

theorem inv3_init (currentDir port : String) (pid : Nat) :
    Inv3 (initState currentDir port pid [readyMarker, readyMarker, readyMarker]) := by
  constructor <;> simp [initState]
  decide

theorem inv3_run (currentDir port : String) (pid : Nat) (acts : List Action) (s : State)
    (hrun : run acts (initState currentDir port pid [readyMarker, readyMarker, readyMarker])
      = some s) : Inv3 s :=
  run_invariant Inv3 inv3_step acts _ s (inv3_init currentDir port pid) hrun

/-- C8, the code at a child that prints the marker on three lines: under no schedule does
`watch` leave its loop (it never reaches `s.cmd.Wait()`) or close `done`; and there is a run
that reads everything, after which the child has exited, `startServer` has long returned, and
`watch` is blocked for good in `ready <- nil` on a full channel that nobody receives from. -/
theorem watch_blocks_on_third_marker (currentDir port : String) (pid : Nat) :
    (∀ acts s,
      run acts (initState currentDir port pid [readyMarker, readyMarker, readyMarker]) = some s →
      (s.watch = .scan ∨ s.watch = .send) ∧ s.doneClosed = false) ∧
    ∃ s, run [Action.watchScan, .watchSend, .selectReady, .watchScan, .watchSend, .watchScan,
          .childExit]
        (initState currentDir port pid [readyMarker, readyMarker, readyMarker]) = some s ∧
      s.out = [] ∧ s.exited = true ∧ s.watch = .send ∧ s.readyBuf = readyCap ∧
      s.caller = .holding ∧ s.doneClosed = false ∧ blocked s = true := by
  refine ⟨fun acts s h => ⟨(inv3_run currentDir port pid acts s h).loop,
    (inv3_run currentDir port pid acts s h).done_open⟩, ?_⟩
  have hm : stringsContains readyMarker readyMarker = true := by decide
  simp [run, step, initState, hm, readyCap, blocked]

/-- C4, the code at a child that printed the marker on three lines and has exited: under no
schedule does a call of `Stop` return; in the run shown the child has exited, the caller is
inside `Stop` waiting on `done`, and no goroutine can move any more. -/
theorem stop_hangs_after_three_markers (currentDir port : String) (pid : Nat) :
    (∀ acts s,
      run acts (initState currentDir port pid [readyMarker, readyMarker, readyMarker]) = some s →
      s.stopsReturned = 0 ∧ step .stopReturn s = none) ∧
    ∃ s, run [Action.watchScan, .watchSend, .selectReady, .watchScan, .watchSend, .watchScan,
          .childExit, .stopCall]
        (initState currentDir port pid [readyMarker, readyMarker, readyMarker]) = some s ∧
      s.exited = true ∧ s.caller = .inStop ∧ s.stopsReturned = 0 ∧ blocked s = true := by
  refine ⟨fun acts s h => ⟨(inv3_run currentDir port pid acts s h).stops, ?_⟩, ?_⟩
  · simp [step, (inv3_run currentDir port pid acts s h).done_open]
  have hm : stringsContains readyMarker readyMarker = true := by decide
  simp [run, step, initState, hm, readyCap, blocked]

theorem inv1_step (a : Action) (s s' : State) (hinv : Inv1 s) (h : step a s = some s') :
    Inv1 s' := by
  obtain ⟨h1, h2, h3, h4⟩ := hinv
  cases a <;> simp only [step] at h
  case childCloseStdout =>
    split at h <;> simp at h
    subst h
    exact ⟨h1, h2, fun _ => rfl, h4⟩
  case childExit =>
    split at h <;> simp at h
    subst h
    exact ⟨h1, h2, fun _ => rfl, h4⟩
  case timerFire =>
    split at h <;> simp at h
    subst h
    exact ⟨h1, h2, h3, h4⟩
  case watchScan =>
    split at h
    next hw =>
      split at h
      next text rest hout =>
        simp only [Option.some.injEq] at h
        subst h
        have hcount : markerCount (text :: rest) =
            markerCount rest + (if stringsContains text readyMarker = true then 1 else 0) := by
          simp [markerCount, List.countP_cons]
        rw [hout, hcount] at h1
        have hsc : (if s.watch = WatchPc.send then 1 else 0) = 0 := by simp [hw]
        rw [hsc] at h1
        refine ⟨?_, h2, h3, ?_⟩
        · show markerCount rest + s.readyBuf +
              (if (if stringsContains text readyMarker = true then WatchPc.send else .scan)
                = .send then 1 else 0) + (if s.endedBy = some .ready then 1 else 0) ≤ 1
          by_cases hm : stringsContains text readyMarker = true
          · simp only [hm, if_true] at h1 ⊢
            omega
          · simp only [hm, Bool.false_eq_true, if_false] at h1 ⊢
            have : (if WatchPc.scan = WatchPc.send then 1 else 0) = 0 := by simp
            rw [this]
            omega
        · intro hc
          split at hc <;> simp at hc
      next hout =>
        split at h <;> simp at h
        subst h
        refine ⟨?_, h2, h3, ?_⟩
        · simp only [hw] at h1
          simp at h1 ⊢
          omega
        · intro hc
          simp at hc
    next => simp at h
  case watchSend =>
    split at h <;> simp at h
    next hw =>
      subst h
      refine ⟨?_, h2, h3, ?_⟩
      · simp only [hw.1, if_true] at h1
        simp
        omega
      · intro hc
        simp at hc
  case watchWait =>
    split at h <;> simp at h
    next hw =>
      subst h
      refine ⟨?_, h2, h3, ?_⟩
      · simp only [hw.1] at h1
        simp at h1 ⊢
        omega
      · intro hc
        simp at hc
  case watchClose =>
    split at h <;> simp at h
    next hw =>
      subst h
      refine ⟨?_, h2, h3, fun _ => rfl⟩
      simp only [hw] at h1
      simp at h1 ⊢
      omega
  case selectReady =>
    split at h <;> simp at h
    next hw =>
      subst h
      have he := h2 hw.1
      refine ⟨?_, ?_, h3, h4⟩
      · show markerCount s.out + (s.readyBuf - 1) + (if s.watch = .send then 1 else 0)
            + (if some SelectCase.ready = some .ready then 1 else 0) ≤ 1
        have e0 : (if s.endedBy = some SelectCase.ready then 1 else 0) = 0 := by simp [he]
        have e1 : (if some SelectCase.ready = some SelectCase.ready then 1 else 0) = 1 := by
          simp
        rw [e0] at h1
        rw [e1]
        have := hw.2
        omega
      · intro hc
        simp at hc
  case selectTimeout =>
    split at h <;> simp at h
    next hw =>
      subst h
      have he := h2 hw.1
      refine ⟨?_, ?_, h3, h4⟩
      · simp only [he] at h1
        simp at h1 ⊢
        omega
      · intro hc
        simp at hc
  case stopCall =>
    split at h <;> simp at h
    next hw =>
      subst h
      refine ⟨h1, ?_, h3, h4⟩
      intro hc
      simp at hc
  case stopReturn =>
    split at h <;> simp at h
    next hw =>
      subst h
      refine ⟨h1, ?_, h3, h4⟩
      intro hc
      simp at hc

theorem inv1_run (currentDir port : String) (pid : Nat) (lines : List String)
    (hlines : markerCount lines ≤ 1) (acts : List Action) (s : State)
    (hrun : run acts (initState currentDir port pid lines) = some s) : Inv1 s := by
  refine run_invariant Inv1 inv1_step acts _ s ?_ hrun
  constructor <;> simp [initState]
  exact hlines

theorem exited_step (a : Action) (s s' : State) (hex : s.exited = true)
    (h : step a s = some s') : s'.exited = true := by
  cases a <;> simp only [step] at h
  case watchScan =>
    split at h
    · split at h
      · simp only [Option.some.injEq] at h
        subst h
        exact hex
      · split at h <;> simp at h
        subst h
        exact hex
    · simp at h
  all_goals
    split at h <;> simp at h
    try subst h
    try first
      | exact hex
      | rfl

/-- When the child's output has at most one line with the marker, `watch` is never stuck once
the child has exited: from every reachable state in which the child has exited, moves of
`watch` alone, no more than `watchMeasure` of them, lead to a state where `done` is closed. -/
theorem watch_finishes_with_one_marker (n : Nat) :
    ∀ s : State, Inv1 s → s.exited = true → watchMeasure s ≤ n →
      ∃ more s', more.length ≤ n ∧
        (∀ a ∈ more, a ∈ [Action.watchScan, .watchSend, .watchWait, .watchClose]) ∧
        run more s = some s' ∧ s'.doneClosed = true := by
  induction n with
  | zero =>
    intro s hinv _ hm
    refine ⟨[], s, by simp, by simp, rfl, hinv.fin_done ?_⟩
    unfold watchMeasure at hm
    cases hw : s.watch <;> simp [hw] at hm
    rfl
  | succ n ih =>
    intro s hinv hex hm
    -- one move of `watch`, then the induction hypothesis
    have key : s.watch = .finished ∨
        ∃ a s1, a ∈ [Action.watchScan, .watchSend, .watchWait, .watchClose] ∧
          step a s = some s1 ∧ watchMeasure s1 < watchMeasure s := by
      cases hw : s.watch
      case finished => exact Or.inl rfl
      case scan =>
        right
        cases hout : s.out with
        | nil =>
          refine ⟨.watchScan, { s with watch := .wait }, by simp, ?_, ?_⟩
          · simp [step, hw, hout, hinv.closed_on_exit hex]
          · simp [watchMeasure, hw]
        | cons text rest =>
          refine ⟨.watchScan,
            { s with
              out := rest
              log := s.log ++ [.childLine text]
              watch := if stringsContains text readyMarker then .send else .scan },
            by simp, ?_, ?_⟩
          · simp only [step, hw, hout, if_true]
          · simp only [watchMeasure, hw, hout, List.length_cons]
            split <;> simp_all <;> omega
      case send =>
        right
        have hb := hinv.budget
        simp only [hw, if_true] at hb
        have hbuf : s.readyBuf = 0 := by omega
        refine ⟨.watchSend, { s with readyBuf := s.readyBuf + 1, watch := .scan }, by simp,
          ?_, ?_⟩
        · simp [step, hw, hbuf, readyCap]
        · simp [watchMeasure, hw]
      case wait =>
        right
        refine ⟨.watchWait, { s with watch := .close }, by simp, ?_, ?_⟩
        · simp [step, hw, hex]
        · simp [watchMeasure, hw]
      case close =>
        right
        refine ⟨.watchClose,
          { s with log := s.log ++ [.stopped], doneClosed := true, watch := .finished },
          by simp, ?_, ?_⟩
        · simp only [step, hw, if_true]
        · simp [watchMeasure, hw]
    rcases key with hfin | ⟨a, s1, ha, hstep, hlt⟩
    · exact ⟨[], s, by simp, by simp, rfl, hinv.fin_done hfin⟩
    · obtain ⟨more, s', h1, h2, h3, h4⟩ :=
        ih s1 (inv1_step a s s1 hinv hstep) (exited_step a s s1 hex hstep) (by omega)
      refine ⟨a :: more, s', by simp; omega, ?_, ?_, h4⟩
      · intro b hb
        simp only [List.mem_cons] at hb
        rcases hb with hb | hb
        · rw [hb]
          exact ha
        · exact h2 b hb
      · simp [run, hstep, h3]

/-- The send of `watch` is the only place it can be stuck at for good, and only a second
marker line gets it there: when at most one line of the child's output contains the marker,
then from every reachable state in which the child has exited, `watch` can run on its own
until it has closed `done`. -/
theorem done_closes_with_one_marker (currentDir port : String) (pid : Nat)
    (lines : List String) (hlines : markerCount lines ≤ 1) (acts : List Action) (s : State)
    (hrun : run acts (initState currentDir port pid lines) = some s)
    (hex : s.exited = true) :
    ∃ more s',
      (∀ a ∈ more, a ∈ [Action.watchScan, .watchSend, .watchWait, .watchClose]) ∧
      run more s = some s' ∧ s'.doneClosed = true := by
  obtain ⟨more, s', _, h2, h3, h4⟩ :=
    watch_finishes_with_one_marker (watchMeasure s) s
      (inv1_run currentDir port pid lines hlines acts s hrun) hex (le_refl _)
  exact ⟨more, s', h2, h3, h4⟩

/-! ### Download and extraction -/

/-- C3, as stated, fails: the jar is absent and the zip is present, `Start` returns after
launching the server, and it has made no download (and one extraction). -/
theorem zip_present_start_skips_download :
    cachedZipWorld.jarStat = .notExist ∧
    (Start cachedZipWorld "8000").1 = .returned (newServer "/pkg" "8000") ∧
    downloads (beforeLaunch (Start cachedZipWorld "8000").2) = 0 ∧
    extractions (beforeLaunch (Start cachedZipWorld "8000").2) = 1 := by
  decide

/-- C3 (amended): when `Start` returns, its events are those before the launch followed by the
launch of the server, and before the launch there is exactly one download and exactly one
extraction if `os.Stat` reports both the jar and the zip missing, no download and exactly one
extraction if it reports the jar missing and the zip not missing, and no download and no
extraction if it does not report the jar missing. -/
theorem start_download_and_extraction_counts (w : World) (port : String) (h : DynamoDBServer)
    (tr : List Event) (hstart : Start w port = (.returned h, tr)) :
    tr = beforeLaunch tr ++ [.start (newServer w.currentDir port).cmd true] ∧
    (w.jarStat = .notExist → w.zipStat = .notExist →
      downloads (beforeLaunch tr) = 1 ∧ extractions (beforeLaunch tr) = 1) ∧
    (w.jarStat = .notExist → w.zipStat ≠ .notExist →
      downloads (beforeLaunch tr) = 0 ∧ extractions (beforeLaunch tr) = 1) ∧
    (w.jarStat ≠ .notExist →
      downloads (beforeLaunch tr) = 0 ∧ extractions (beforeLaunch tr) = 0) := by
  obtain ⟨_, h2, h3, h4⟩ := Start_returned w port h tr hstart
  refine ⟨h2, ?_, ?_, ?_⟩
  · intro hj hz
    simp [h3, h4, hj, hz]
  · intro hj hz
    simp [h3, h4, hj, hz]
  · intro hj
    simp [h3, h4, hj]

/-- A run of `Start` with neither the jar nor the zip there. -/
theorem start_download_and_extraction_counts_witness :
    Start freshWorld "8000" = (.returned (newServer "/pkg" "8000"), (Start freshWorld "8000").2) ∧
    ((Start freshWorld "8000").2 = beforeLaunch (Start freshWorld "8000").2 ++
        [.start (newServer freshWorld.currentDir "8000").cmd true] ∧
    (freshWorld.jarStat = .notExist → freshWorld.zipStat = .notExist →
      downloads (beforeLaunch (Start freshWorld "8000").2) = 1 ∧
      extractions (beforeLaunch (Start freshWorld "8000").2) = 1) ∧
    (freshWorld.jarStat = .notExist → freshWorld.zipStat ≠ .notExist →
      downloads (beforeLaunch (Start freshWorld "8000").2) = 0 ∧
      extractions (beforeLaunch (Start freshWorld "8000").2) = 1) ∧
    (freshWorld.jarStat ≠ .notExist →
      downloads (beforeLaunch (Start freshWorld "8000").2) = 0 ∧
      extractions (beforeLaunch (Start freshWorld "8000").2) = 0)) :=
  ⟨by decide,
   start_download_and_extraction_counts freshWorld "8000" (newServer "/pkg" "8000")
    (Start freshWorld "8000").2 (by decide)⟩

/-- C5, the code at an archive whose directory entry cannot be created: `os.MkdirAll` fails,
the error is dropped, and `Start` returns the handle normally. -/
theorem mkdirAll_failure_does_not_abort :
    (Start brokenDirWorld "8000").1 = .returned (newServer "/pkg" "8000") ∧
    Event.did .mkdirAll "/pkg/dynamodb-local/lib" false ∈ (Start brokenDirWorld "8000").2 ∧
    (Event.did .mkdirAll "/pkg/dynamodb-local/lib" false).isFailure = true := by
  decide

/-! ### The paths of the program -/

/-- The extraction directory of `unzipLib` is the directory `D` of `jarPath_shape`, and so is
`path.Dir` of the jar path. -/
theorem unzipDest_shape (currentDir : String) :
    ∃ r D dd, NF r D dd ∧ D ≠ [] ∧ slashIfNeeded r D = D ++ ['/'] ∧
      (jarPath currentDir).data = D ++ '/' :: "DynamoDBLocal.jar".data ∧
      (Dir (jarPath currentDir)).data = D ∧ (unzipDest currentDir).data = D := by
  obtain ⟨r, D, dd, hnf, hne, hsl, hJ⟩ := jarPath_shape currentDir.data
  have hdir : dirChars (D ++ '/' :: "DynamoDBLocal.jar".data) = D := by
    unfold dirChars
    rw [dirPart_append D _ (by decide), cleanChars_eq_fold,
      (cleanFold_extend r D dd hnf hne []).2]
    simp [pathElements, elemStep_nil, hne]
  have hJ2 : (Join [currentDir, DynamoDBLocal_Jar_Path]).data =
      D ++ '/' :: "DynamoDBLocal.jar".data := by
    simpa [Join] using hJ
  refine ⟨r, D, dd, hnf, hne, hsl, hJ2, ?_, ?_⟩
  · simp only [Dir, jarPath, hJ2, hdir]
  · simp only [unzipDest, Join, Dir, List.map_cons, List.map_nil, hJ, hdir]
    rw [joinChars_single D hne]
    exact (cleanChars_of_NF r D dd hnf hne).1

/-- Path elements other than `..` only ever add to `out`: what was in `out` when they begin
stays as a whole directory at the front. -/
theorem fold_within (r : Bool) (D : List Char) (hsl : slashIfNeeded r D = D ++ ['/'])
    (es : List (List Char)) (hes : ['.', '.'] ∉ es) :
    ∀ st : List Char × Nat, (st.1 = D ∨ D ++ ['/'] <+: st.1) →
      ((es.foldl (elemStep r) st).1 = D ∨ D ++ ['/'] <+: (es.foldl (elemStep r) st).1) := by
  induction es with
  | nil => exact fun st h => h
  | cons e es ih =>
    intro st h
    simp only [List.foldl_cons]
    apply ih (fun hcon => hes (by simp [hcon]))
    have he : e ≠ ['.', '.'] := fun hcon => hes (by simp [hcon])
    unfold elemStep
    by_cases h1 : e = [] ∨ e = ['.']
    · simpa [h1] using h
    · simp only [h1, he, if_false]
      right
      rcases h with h | h
      · rw [h, hsl]
        exact List.prefix_append _ _
      · refine h.trans ?_
        unfold slashIfNeeded
        split
        · rw [List.append_assoc]
          exact List.prefix_append _ _
        · exact List.prefix_append _ _

/-- C9 (amended): for every archive entry whose name has no `..` path element, the path
`path.Join(dest, f.Name)` is the extraction directory `dest` of `unzipLib` itself or begins
with `dest` followed by a slash, and it is the only path `extractAndWriteFile` opens for
writing. -/
theorem entry_without_dotdot_stays_within_dest (currentDir : String) (f : ZipEntry)
    (hname : ['.', '.'] ∉ pathElements f.name.data) :
    isWithin (unzipDest currentDir) (Join [unzipDest currentDir, f.name]) = true ∧
    ∀ t ok, Event.did .openFile t ok ∈ (extractAndWriteFile (unzipDest currentDir) f).2 →
      t = Join [unzipDest currentDir, f.name] := by
  constructor
  · obtain ⟨r, D, dd, hnf, hne, hsl, _, _, hD⟩ := unzipDest_shape currentDir
    have hE : (Join [unzipDest currentDir, f.name]).data =
        cleanChars (D ++ '/' :: f.name.data) := by
      simp only [Join, List.map_cons, List.map_nil, hD]
      exact joinChars_pair D _ hne
    have hF := (cleanFold_extend r D dd hnf hne f.name.data).2
    have hW := fold_within r D hsl (pathElements f.name.data) hname (D, dd) (Or.inl rfl)
    rw [← hF] at hW
    have hne2 : (cleanFold (D ++ '/' :: f.name.data)).1 ≠ [] := by
      rcases hW with hW | hW
      · rw [hW]
        exact hne
      · intro hcon
        rw [hcon] at hW
        simp at hW
    have hE2 : (Join [unzipDest currentDir, f.name]).data =
        (cleanFold (D ++ '/' :: f.name.data)).1 := by
      rw [hE, cleanChars_eq_fold]
      simp [hne2]
    unfold isWithin
    rw [Bool.or_eq_true]
    rcases hW with hW | hW
    · left
      rw [decide_eq_true_eq]
      apply String.ext
      rw [hE2, hW, hD]
    · right
      rw [hE2, hD, List.isPrefixOf_iff_prefix]
      exact hW
  · intro t ok ht
    unfold extractAndWriteFile at ht
    split at ht
    · simp at ht
    · simp only at ht
      split at ht
      · simp at ht
      · split at ht
        · simp at ht
          exact ht.1
        · simp at ht
          exact ht.1

/-- An entry of the archive as shipped, extracted below `/pkg/dynamodb-local`. -/
theorem entry_without_dotdot_stays_within_dest_witness :
    ['.', '.'] ∉ pathElements libEntry.name.data ∧
    (isWithin (unzipDest "/pkg") (Join [unzipDest "/pkg", libEntry.name]) = true ∧
    ∀ t ok, Event.did .openFile t ok ∈ (extractAndWriteFile (unzipDest "/pkg") libEntry).2 →
      t = Join [unzipDest "/pkg", libEntry.name]) :=
  ⟨by decide, entry_without_dotdot_stays_within_dest "/pkg" libEntry (by decide)⟩

/-- C9, as stated, fails: an entry named `../../.ssh/authorized_keys` makes
`extractAndWriteFile` open for writing a file that is not inside the extraction directory. -/
theorem dotdot_entry_leaves_dest :
    unzipDest "/home/u/pkg" = "/home/u/pkg/dynamodb-local" ∧
    Join [unzipDest "/home/u/pkg", escapingEntry.name] = "/home/u/.ssh/authorized_keys" ∧
    isWithin (unzipDest "/home/u/pkg")
      (Join [unzipDest "/home/u/pkg", escapingEntry.name]) = false ∧
    Event.did .openFile "/home/u/.ssh/authorized_keys" true ∈
      (extractAndWriteFile (unzipDest "/home/u/pkg") escapingEntry).2 := by
  decide

/-- C10: `startServer` builds the command `java -jar J -sharedDb -inMemory -port <port>` with
the caller's port unchanged; that command is the one a returning `Start` has launched and the
one in the handle; `J` is `path.Join(currentDir, "dynamodb-local/DynamoDBLocal.jar")`, the
path `Start` probes first with `os.Stat`; and the parent directory `path.Dir(J)` is the
directory `unzipLib` extracts into. -/
theorem startServer_launches_java_on_jar (w : World) (port : String) :
    (newServer w.currentDir port).cmd =
      { name := "java",
        args := ["-jar", jarPath w.currentDir, "-sharedDb", "-inMemory", "-port", port] } ∧
    jarPath w.currentDir = Join [w.currentDir, "dynamodb-local/DynamoDBLocal.jar"] ∧
    (Start w port).2.head? = some (Event.stat (jarPath w.currentDir)) ∧
    (∀ c ok, Event.start c ok ∈ (Start w port).2 → c = (newServer w.currentDir port).cmd) ∧
    (∀ h, (Start w port).1 = .returned h →
      h = newServer w.currentDir port ∧
      Event.start (newServer w.currentDir port).cmd true ∈ (Start w port).2) ∧
    Dir (jarPath w.currentDir) = unzipDest w.currentDir ∧
    (unzipLib w (zipPath w.currentDir)).2 =
      (if w.openArchiveFails then
        [.log "Unzipping files...", .did .openArchive (zipPath w.currentDir) false]
       else [.log "Unzipping files...", .did .openArchive (zipPath w.currentDir) true] ++
        (extractAll (unzipDest w.currentDir) w.entries).2) := by
  have hS : ∀ c ok, Event.start c ok ∈ (startServer w port).2 →
      c = (newServer w.currentDir port).cmd := by
    intro c ok hc
    unfold startServer at hc
    simp only at hc
    split at hc
    · simp at hc
    · split at hc
      · simp at hc
        exact hc.1
      · simp at hc
        exact hc.1
  have hU : ∀ c ok,
      Event.start c ok ∉ (unzipLib w (Join [w.currentDir, DynamoDBLocal_Zip_Name])).2 := by
    intro c ok hc
    unfold unzipLib at hc
    split at hc
    · simp at hc
    · simp only [List.mem_append, List.mem_cons, List.mem_singleton] at hc
      rcases hc with (hc | hc | hc) | hc
      · simp at hc
      · simp at hc
      · simp at hc
      · exact (extractAll_events _ _ _ hc).2.2.2 c ok rfl
  refine ⟨rfl, rfl, ?_, ?_, ?_, ?_, ?_⟩
  · unfold Start
    simp only [jarPath]
    split
    · split <;> rfl
    · rfl
  · intro c ok hc
    have hD : ∀ c ok, Event.start c ok ∉ (downloadLocalLib w).2 := by
      intro c ok hc
      unfold downloadLocalLib at hc
      simp only at hc
      have hZ : Event.start c ok ∉
          (if w.zipStat = .notExist then
              downloadZip w (Join [w.currentDir, DynamoDBLocal_Zip_Name])
            else (Outcome.returned (),
              [Event.log (Join [w.currentDir, DynamoDBLocal_Zip_Name] ++
                " already exists. Try to unzip it.")])).2 := by
        split
        · unfold downloadZip
          split
          · simp
          · split <;> simp
        · simp
      split at hc
      · split at hc
        all_goals
          simp only [List.mem_append, List.mem_cons] at hc
          rcases hc with (hc | hc) | hc
          · simp at hc
          · exact hZ hc
          · rename_i heq
            have := hU c ok
            rw [heq] at this
            exact this hc
      all_goals
        simp only [List.mem_cons] at hc
        rcases hc with hc | hc
        · simp at hc
        · exact hZ hc
    unfold Start at hc
    simp only at hc
    split at hc
    · split at hc
      · rename_i heq
        simp only [List.cons_append, List.mem_cons, List.mem_append] at hc
        rcases hc with hc | hc | hc | hc
        · simp at hc
        · simp at hc
        · have := hD c ok
          rw [heq] at this
          exact absurd hc this
        · exact hS c ok hc
      all_goals
        rename_i heq
        simp only [List.mem_cons] at hc
        rcases hc with hc | hc | hc
        · simp at hc
        · simp at hc
        · have := hD c ok
          rw [heq] at this
          exact absurd hc this
    · simp only [List.mem_cons] at hc
      rcases hc with hc | hc
      · simp at hc
      · exact hS c ok hc
  · intro h hh
    obtain ⟨h1, h2, _, _⟩ := Start_returned w port h (Start w port).2 (by rw [← hh])
    refine ⟨h1, ?_⟩
    rw [h2]
    simp
  · obtain ⟨_, _, _, _, _, _, _, h1, h2⟩ := unzipDest_shape w.currentDir
    apply String.ext
    rw [h1, h2]
  · unfold unzipLib
    split <;> rfl

end DynamoDBLocalServer
